import Mathlib

/-!
# Stock-Trades-API: the record store and its request handlers

A shallow embedding of `src/express.js`.

* JSON data is the type `JsVal`; an object is the list of its own properties
  in insertion order (`Obj`), read with `getProp` and written with `setProp`.
* Numbers are `JsNum`: `NaN`, the two infinities and the finite numbers.  The
  finite numbers of the model are the integers.  `Math.max`, `>=`, `<=` and
  `===` are exact on them; the sum `x + 1` is the binary64 sum: the exact sum
  rounded to the nearest number with a 53-bit significand, ties to even
  (`toDouble`), so that it is exact up to 2^53 and `2^53 + 1` is `2^53`.
* Coercions performed by the JavaScript engine on strings, arrays and objects
  (`ToNumber`) and the number of arguments a call may spread are not code of
  the repository; they are the fields of an `Engine` that every definition
  using them takes as a parameter.
* A handler is a function of the request (`req.body` as an `Option Obj`,
  `none` being `undefined`; `parseInt(req.params.id)` as a `JsNum`) and of the
  collection returned by `readTrades()`, an array of objects; it yields an
  `Outcome`: the reply, the number of calls of `readTrades`, and the
  collection handed to `writeTrades`, if any.
* `src/express.js` registers no body-parsing middleware, so over HTTP the
  handlers of this application receive `req.body` undefined whatever the
  client sent (`reqBody`); a handler run with a parsed body is the same
  handler function on another `req`.
* An exception that escapes a handler (a `TypeError`, a `RangeError`) is the
  reply `threw`.
* The storage is a `Disk`: the text of `trades.json`, told apart by what
  `JSON.parse` makes of it, and whether `fs` may read and write it.
  `readTrades` and `writeTrades` are assembled from `readFileSync`,
  `jsonParse`, `jsonStringify` and `writeFileSync` with the `try`/`catch` of
  the source.  What a request leaves behind is the storage
  `Outcome.persist`: the next request sees `readTrades` of it, which is the
  written collection as JSON serialises it when the write succeeded and the
  old content when the write failed (the error is swallowed) or no write was
  made.  `Holds d trades` says that `readTrades` returns the collection
  `trades` on the storage `d`.
-/

namespace StockTrades

/-- A JavaScript number: `NaN`, `-Infinity`, `+Infinity` or a finite (integer) number. -/
inductive JsNum where
  | nan
  | negInf
  | posInf
  | fin (n : Int)
  deriving DecidableEq, Repr

/-- A JSON value as held in memory after `JSON.parse`. -/
inductive JsVal where
  | null
  | bool (b : Bool)
  | num (x : JsNum)
  | str (s : String)
  | arr (xs : List JsVal)
  | obj (ps : List (String × JsVal))

/-- An object: its own properties, in insertion order. -/
abbrev Obj := List (String × JsVal)

/-- The coercions of the JavaScript engine that the service relies on for
values that are neither numbers, booleans nor null. -/
structure Engine where
  /-- The largest number of arguments a call may spread; a call
  `Math.max(...xs)` with more elements throws a `RangeError`. -/
  maxArguments : Nat
  /-- `ToNumber` of a string. -/
  stringToNumber : String → JsNum
  /-- `ToNumber` of an array or object (`ToPrimitive`, then `ToNumber`);
  `none` when `ToPrimitive` throws a `TypeError`. -/
  objectToNumber : JsVal → Option JsNum

/-- Own-property test: `Object.prototype.hasOwnProperty.call(o, k)`. -/
def hasOwn (o : Obj) (k : String) : Bool :=
  o.any (fun p => p.1 == k)

/-- Property read `o.k`; `none` is `undefined`. -/
def getProp (o : Obj) (k : String) : Option JsVal :=
  match o with
  | [] => none
  | (k', v) :: rest => if k' == k then some v else getProp rest k

/-- Property write `o.k = v`: an existing property keeps its place, a new one
is added last. -/
def setProp (o : Obj) (k : String) (v : JsVal) : Obj :=
  match o with
  | [] => [(k, v)]
  | (k', v') :: rest => if k' == k then (k, v) :: rest else (k', v') :: setProp rest k v

/-- `ToNumber` of a value read from a property (`none` is `undefined`);
the result is `none` when the coercion throws. -/
def toNumber (E : Engine) : Option JsVal → Option JsNum
  | none => some JsNum.nan
  | some JsVal.null => some (JsNum.fin 0)
  | some (JsVal.bool b) => some (JsNum.fin (if b then 1 else 0))
  | some (JsVal.num x) => some x
  | some (JsVal.str s) => some (E.stringToNumber s)
  | some (JsVal.arr xs) => E.objectToNumber (JsVal.arr xs)
  | some (JsVal.obj ps) => E.objectToNumber (JsVal.obj ps)

/-- `ToNumber` of every argument, left to right; `none` when one throws. -/
def toNumbers (E : Engine) : List (Option JsVal) → Option (List JsNum)
  | [] => some []
  | v :: vs =>
    match toNumber E v with
    | none => none
    | some x =>
      match toNumbers E vs with
      | none => none
      | some xs => some (x :: xs)

/-- The larger of two numbers as `Math.max` sees them: `NaN` wins over everything. -/
def jsMax2 : JsNum → JsNum → JsNum
  | JsNum.nan, _ => JsNum.nan
  | _, JsNum.nan => JsNum.nan
  | JsNum.posInf, _ => JsNum.posInf
  | _, JsNum.posInf => JsNum.posInf
  | JsNum.negInf, y => y
  | x, JsNum.negInf => x
  | JsNum.fin a, JsNum.fin b => JsNum.fin (max a b)

/-- `Math.max` of already coerced arguments; `-Infinity` for no argument. -/
def mathMax (xs : List JsNum) : JsNum :=
  xs.foldl jsMax2 JsNum.negInf

/-- The spacing of binary64 numbers at the magnitude `n`: the least power of
two `u` (from `u` on, doubling at most `fuel` times) with `n / u < 2^53`. -/
def ulpFrom : Nat → Nat → Nat → Nat
  | 0, _, u => u
  | fuel + 1, n, u => if n / u < 2 ^ 53 then u else ulpFrom fuel n (2 * u)

/-- The natural number nearest to `n` that has a 53-bit significand, ties to
the even significand. -/
def roundNat (n : Nat) : Nat :=
  let unit := ulpFrom n n 1
  let q := n / unit
  let r := n % unit
  if 2 * r < unit then q * unit
  else if unit < 2 * r then (q + 1) * unit
  else if q % 2 = 0 then q * unit
  else (q + 1) * unit

/-- The binary64 number nearest to the integer `z` (round to nearest, ties to
even), as an integer. -/
def toDouble (z : Int) : Int :=
  if z < 0 then -(roundNat z.natAbs : Int) else (roundNat z.natAbs : Int)

/-- The sum `x + 1` of binary64 arithmetic. -/
def jsAdd1 : JsNum → JsNum
  | JsNum.fin n => JsNum.fin (toDouble (n + 1))
  | x => x

/-- The comparison `x >= k` for an integer literal `k`. -/
def jsGe (x : JsNum) (k : Int) : Bool :=
  match x with
  | JsNum.nan => false
  | JsNum.negInf => false
  | JsNum.posInf => true
  | JsNum.fin n => decide (k ≤ n)

/-- The comparison `x <= k` for an integer literal `k`. -/
def jsLe (x : JsNum) (k : Int) : Bool :=
  match x with
  | JsNum.nan => false
  | JsNum.negInf => true
  | JsNum.posInf => false
  | JsNum.fin n => decide (n ≤ k)

/-- Strict equality `v === id` of a property value with a number. -/
def strictEqNum (v : Option JsVal) (id : JsNum) : Bool :=
  match v with
  | some (JsVal.num x) =>
    match x, id with
    | JsNum.nan, _ => false
    | _, JsNum.nan => false
    | x, y => decide (x = y)
  | _ => false

/-- The test `t.id === id` of the lookups. -/
def idIs (id : JsNum) (t : Obj) : Bool :=
  strictEqNum (getProp t "id") id

/-- `getNextId`: 1 for the empty collection, otherwise
`Math.max(...trades.map(trade => trade.id)) + 1`; `none` when the call throws:
a `RangeError` when the ids are more than a call may spread, a `TypeError`
when a coercion throws. -/
def getNextId (E : Engine) (trades : List Obj) : Option JsNum :=
  if trades.length = 0 then some (JsNum.fin 1)
  else if E.maxArguments < trades.length then none
  else
    match toNumbers E (trades.map (fun trade => getProp trade "id")) with
    | none => none
    | some ids => some (jsAdd1 (mathMax ids))

/-- The fields `validateTrade` requires. -/
def requiredFields : List String := ["type", "user_id", "symbol", "shares", "price"]

/-- `validateTrade`: `requiredFields.every(field => trade.hasOwnProperty(field))`.
The result `none` is a thrown `TypeError`: on `undefined` the property access
throws; on an object the method is looked up on the candidate itself, and an
own property named `hasOwnProperty` (a JSON value, hence not callable) shadows
the builtin. -/
def validateTrade (trade : Option Obj) : Option Bool :=
  match trade with
  | none => none
  | some candidate =>
    if hasOwn candidate "hasOwnProperty" then none
    else some (requiredFields.all (fun field => hasOwn candidate field))

/-- `validateShares`: `shares >= 10 && shares <= 30`, both comparisons on the
number the operand coerces to; `none` when the coercion throws. -/
def validateShares (E : Engine) (shares : Option JsVal) : Option Bool :=
  match toNumber E shares with
  | none => none
  | some x => some (jsGe x 10 && jsLe x 30)

/-- What a handler sends back. -/
inductive Reply where
  /-- `res.status(status).json(body)`. -/
  | json (status : Nat) (body : JsVal)
  /-- `res.sendStatus(status)`. -/
  | bare (status : Nat)
  /-- An exception escaped the handler. -/
  | threw

/-- The effect of one request. -/
structure Outcome where
  /-- The reply. -/
  reply : Reply
  /-- How often `readTrades` was called. -/
  reads : Nat
  /-- The argument of `writeTrades`, when it was called. -/
  written : Option (List Obj)

/-- The collection in the memory of a handler that read `trades` when it
ends: the argument of `writeTrades` when it was called, `trades` otherwise.
What the next request reads is `readTrades` of `Outcome.persist`. -/
def Outcome.store (o : Outcome) (trades : List Obj) : List Obj :=
  o.written.getD trades

/-- The body `{ message: text }`. -/
def message (text : String) : JsVal :=
  JsVal.obj [("message", JsVal.str text)]

/-- The reply `404 { message: 'Trade not found' }`. -/
def notFound : Reply := Reply.json 404 (message "Trade not found")

/-- The reply `400 { message: 'Invalid trade data' }`. -/
def invalidTrade : Reply := Reply.json 400 (message "Invalid trade data")

/-- The reply `400 { message: 'Invalid price data' }`. -/
def invalidPrice : Reply := Reply.json 400 (message "Invalid price data")

/-- Handler of `GET /trades`. -/
def listTrades (trades : List Obj) : Outcome :=
  { reply := Reply.json 200 (JsVal.obj [("trades", JsVal.arr (trades.map JsVal.obj))]),
    reads := 1, written := none }

/-- Handler of `GET /trades/:id`. -/
def getTrade (id : JsNum) (trades : List Obj) : Outcome :=
  match trades.find? (idIs id) with
  | none => { reply := notFound, reads := 1, written := none }
  | some trade => { reply := Reply.json 200 (JsVal.obj trade), reads := 1, written := none }

/-- Handler of `POST /trades`; `body` is `req.body`. With `req.body`
undefined the call `validateTrade(trade)` throws. -/
def postTrade (E : Engine) (body : Option Obj) (trades : List Obj) : Outcome :=
  match body with
  | none => { reply := Reply.threw, reads := 0, written := none }
  | some trade =>
    match validateTrade (some trade) with
    | none => { reply := Reply.threw, reads := 0, written := none }
    | some false => { reply := invalidTrade, reads := 0, written := none }
    | some true =>
      match validateShares E (getProp trade "shares") with
      | none => { reply := Reply.threw, reads := 0, written := none }
      | some false => { reply := invalidTrade, reads := 0, written := none }
      | some true =>
        match getNextId E trades with
        | none => { reply := Reply.threw, reads := 1, written := none }
        | some id =>
          let created := setProp trade "id" (JsVal.num id)
          { reply := Reply.json 201 (JsVal.obj created), reads := 1,
            written := some (trades ++ [created]) }

/-- Handler of `PATCH /trades/:id`; `body` is `req.body`. With `req.body`
undefined the property access `req.body.price` throws. -/
def patchTrade (id : JsNum) (body : Option Obj) (trades : List Obj) : Outcome :=
  match body with
  | none => { reply := Reply.threw, reads := 0, written := none }
  | some fields =>
    match getProp fields "price" with
    | some (JsVal.num price) =>
      match trades.findIdx? (idIs id) with
      | none => { reply := notFound, reads := 1, written := none }
      | some tradeIndex =>
        match trades[tradeIndex]? with
        | none => { reply := Reply.threw, reads := 1, written := none }
        | some trade =>
          let updated := setProp trade "price" (JsVal.num price)
          { reply := Reply.json 200 (JsVal.obj updated), reads := 1,
            written := some (trades.set tradeIndex updated) }
    | _ => { reply := invalidPrice, reads := 0, written := none }

/-- Handler of `DELETE /trades/:id`. -/
def deleteTrade (id : JsNum) (trades : List Obj) : Outcome :=
  { reply := Reply.bare 204, reads := 1,
    written := some (trades.filter (fun trade => !idIs id trade)) }

/-- The five requests of the service, as the handlers receive them: `body`
is `req.body`, `id` is `parseInt(req.params.id)`. -/
inductive Request where
  | list
  | get (id : JsNum)
  | create (body : Option Obj)
  | updatePrice (id : JsNum) (body : Option Obj)
  | delete (id : JsNum)

/-- The value of `req.body` in a handler of this application for a request
whose JSON payload is `payload`: `src/express.js` registers no body-parsing
middleware (its only `app.use` is the `morgan` logger), so Express leaves
`req.body` undefined. -/
def reqBody (_payload : Obj) : Option Obj :=
  none

/-- Dispatch of a request to its handler. -/
def handle (E : Engine) (req : Request) (trades : List Obj) : Outcome :=
  match req with
  | Request.list => listTrades trades
  | Request.get id => getTrade id trades
  | Request.create body => postTrade E body trades
  | Request.updatePrice id body => patchTrade id body trades
  | Request.delete id => deleteTrade id trades

/-! ## Vocabulary of the statements -/

/-- The integer `n` as a property value. -/
abbrev JsVal.int (n : Int) : JsVal := JsVal.num (JsNum.fin n)

/-- The trades of the collection carry the integer ids `ids`, in order. -/
def HasIds (trades : List Obj) (ids : List Int) : Prop :=
  trades.map (fun t => getProp t "id") = ids.map (fun n => some (JsVal.int n))

/-- The invariant of the collection: every id is an integer, the ids are
pairwise distinct and positive. -/
def Inv (trades : List Obj) : Prop :=
  ∃ ids : List Int, HasIds trades ids ∧ ids.Nodup ∧ ∀ i ∈ ids, 0 < i

/-- A create body passes validation: both tests of the handler return true. -/
def Valid (E : Engine) (body : Obj) : Prop :=
  validateTrade (some body) = some true ∧
    validateShares E (getProp body "shares") = some true

/-- An engine that spreads up to 100000 arguments and whose coercions of
strings and objects all give `NaN`. -/
def nanEngine : Engine :=
  { maxArguments := 100000, stringToNumber := fun _ => JsNum.nan,
    objectToNumber := fun _ => some JsNum.nan }

/-- A create body with the five required fields and `shares`. -/
def sampleBody (shares : Int) : Obj :=
  [("type", JsVal.str "buy"), ("user_id", JsVal.int 1), ("symbol", JsVal.str "ACME"),
   ("shares", JsVal.int shares), ("price", JsVal.int 10)]

/-- A stored trade with id `id`. -/
def sampleTrade (id : Int) : Obj :=
  [("type", JsVal.str "buy"), ("user_id", JsVal.int 1), ("symbol", JsVal.str "ACME"),
   ("shares", JsVal.int 15), ("price", JsVal.int 10), ("id", JsVal.int id)]

/-- A body with the five required fields, `shares` 15, and an own property
named `hasOwnProperty`, as `JSON.parse` builds it from
`{"hasOwnProperty": true, "type": "buy", ...}`. -/
def shadowBody : Obj :=
  ("hasOwnProperty", JsVal.bool true) :: sampleBody 15

/-- The id carried by the trade of a JSON reply. -/
def Reply.tradeId : Reply → Option JsVal
  | Reply.json _ (JsVal.obj trade) => getProp trade "id"
  | _ => none

/-- The number of calls of `writeTrades` in a request: one when a collection
was handed to it, none otherwise. -/
def Outcome.writes (o : Outcome) : Nat :=
  match o.written with
  | some _ => 1
  | none => 0

/-! ## The storage file -/

/-- The text of a file, told apart by what `JSON.parse` makes of it. -/
inductive FileText where
  /-- A text that `JSON.parse` rejects with a `SyntaxError`. -/
  | malformed
  /-- A JSON text; `v` is the value `JSON.parse` returns for it. -/
  | json (v : JsVal)

/-- The storage as `fs` presents it: the text of `trades.json` when the file
exists, and whether reading and writing it succeed. -/
structure Disk where
  /-- The text of the file; `none` when there is no file. -/
  file : Option FileText
  /-- Whether `fs.readFileSync` may read the file. -/
  readable : Bool
  /-- Whether `fs.writeFileSync` may (create and) write the file. -/
  writable : Bool

/-- The call `fs.readFileSync(tradesFile, 'utf8')`; `none` when it throws. -/
def readFileSync (d : Disk) : Option FileText :=
  if d.readable then d.file else none

/-- The call `JSON.parse(data)`; `none` when it throws. -/
def jsonParse : FileText → Option JsVal
  | FileText.malformed => none
  | FileText.json v => some v

/-- Truthiness of a value, as the operator `||` tests it. -/
def truthy : JsVal → Bool
  | JsVal.null => false
  | JsVal.bool b => b
  | JsVal.num JsNum.nan => false
  | JsVal.num (JsNum.fin n) => decide (n ≠ 0)
  | JsVal.num _ => true
  | JsVal.str s => decide (s ≠ "")
  | JsVal.arr _ => true
  | JsVal.obj _ => true

/-- `readTrades`: `JSON.parse(data) || []` of the text of the file, and `[]`
when reading or parsing throws. -/
def readTrades (d : Disk) : JsVal :=
  match readFileSync d with
  | none => JsVal.arr []
  | some data =>
    match jsonParse data with
    | none => JsVal.arr []
    | some v => if truthy v then v else JsVal.arr []

mutual
/-- What `JSON.parse` reads back from the text `JSON.stringify` writes for a
value: the value itself, with `null` in place of every number that is not
finite. -/
def jsonValue : JsVal → JsVal
  | JsVal.num (JsNum.fin n) => JsVal.num (JsNum.fin n)
  | JsVal.num _ => JsVal.null
  | JsVal.arr xs => JsVal.arr (jsonValues xs)
  | JsVal.obj ps => JsVal.obj (jsonProps ps)
  | v => v
/-- The elements of an array, each as `jsonValue` has it. -/
def jsonValues : List JsVal → List JsVal
  | [] => []
  | v :: vs => jsonValue v :: jsonValues vs
/-- The properties of an object, each value as `jsonValue` has it. -/
def jsonProps : List (String × JsVal) → List (String × JsVal)
  | [] => []
  | (k, v) :: ps => (k, jsonValue v) :: jsonProps ps
end

mutual
/-- Every number inside the value is finite. -/
def allFinite : JsVal → Bool
  | JsVal.num (JsNum.fin _) => true
  | JsVal.num _ => false
  | JsVal.arr xs => allFiniteValues xs
  | JsVal.obj ps => allFiniteProps ps
  | _ => true
/-- Every number inside the elements is finite. -/
def allFiniteValues : List JsVal → Bool
  | [] => true
  | v :: vs => allFinite v && allFiniteValues vs
/-- Every number inside the property values is finite. -/
def allFiniteProps : List (String × JsVal) → Bool
  | [] => true
  | (_, v) :: ps => allFinite v && allFiniteProps ps
end

/-- The call `JSON.stringify(trades, null, 2)`: a JSON text that parses to
`jsonValue trades`. -/
def jsonStringify (trades : JsVal) : FileText :=
  FileText.json (jsonValue trades)

/-- The call `fs.writeFileSync(tradesFile, data)`; `none` when it throws. -/
def writeFileSync (d : Disk) (data : FileText) : Option Disk :=
  if d.writable then some { d with file := some data } else none

/-- `writeTrades`: the file is overwritten with the serialised collection;
when writing throws the error is logged and the storage stays as it was. -/
def writeTrades (trades : JsVal) (d : Disk) : Disk :=
  match writeFileSync d (jsonStringify trades) with
  | none => d
  | some d' => d'

/-- Handler of `GET /trades` on the storage: `res.json({ trades })` with
whatever `readTrades()` returned. -/
def listStored (d : Disk) : Reply :=
  Reply.json 200 (JsVal.obj [("trades", readTrades d)])

/-- A storage whose file holds the JSON text of `v`, readable and writable. -/
def diskWith (v : JsVal) : Disk :=
  { file := some (FileText.json v), readable := true, writable := true }

/-- A storage whose file holds the JSON text of `v`, readable but not
writable: `fs.writeFileSync` throws on it. -/
def readOnlyDisk (v : JsVal) : Disk :=
  { file := some (FileText.json v), readable := true, writable := false }

/-- The storage a request leaves behind on the storage `d`: `writeTrades` is
applied to `d` when the handler called it. -/
def Outcome.persist (o : Outcome) (d : Disk) : Disk :=
  match o.written with
  | some trades => writeTrades (JsVal.arr (trades.map JsVal.obj)) d
  | none => d

/-- The storage `d` holds the collection `trades`: it is what `readTrades()`
returns on `d`. -/
def Holds (d : Disk) (trades : List Obj) : Prop :=
  readTrades d = JsVal.arr (trades.map JsVal.obj)

/-- The ids `ids` are safe integers: below 2^53 in absolute value. -/
def SafeIds (ids : List Int) : Prop :=
  ∀ i ∈ ids, -(2 ^ 53) < i ∧ i < 2 ^ 53

/-- The integer 2^53, the least positive integer `n` for which `n + 1` is not
a binary64 number. -/
def twoPow53 : Int := 9007199254740992


/-! ## Properties of objects and numbers -/

theorem getProp_setProp_self (o : Obj) (k : String) (v : JsVal) :
    getProp (setProp o k v) k = some v := by
  induction o with
  | nil => simp [setProp, getProp]
  | cons p rest ih =>
    obtain ⟨k', v'⟩ := p
    by_cases h : (k' == k) = true
    · simp [setProp, getProp, h]
    · simp [setProp, getProp, h, ih]

theorem getProp_setProp_of_ne (o : Obj) (k j : String) (v : JsVal) (hkj : k ≠ j) :
    getProp (setProp o k v) j = getProp o j := by
  induction o with
  | nil =>
    have : (k == j) = false := by simpa using hkj
    simp [setProp, getProp, this]
  | cons p rest ih =>
    obtain ⟨k', v'⟩ := p
    by_cases h : (k' == k) = true
    · have hk : k' = k := by simpa using h
      subst hk
      have : (k' == j) = false := by simpa using hkj
      simp [setProp, getProp, this]
    · by_cases hj : (k' == j) = true
      · simp [setProp, getProp, h, hj]
      · simp [setProp, getProp, h, hj, ih]

theorem toNumbers_int (E : Engine) (ids : List Int) :
    toNumbers E (ids.map (fun n => some (JsVal.int n))) = some (ids.map JsNum.fin) := by
  induction ids with
  | nil => rfl
  | cons i is ih => simp [toNumbers, toNumber, ih]

theorem foldl_jsMax2_fin (a : Int) (l : List Int) :
    (l.map JsNum.fin).foldl jsMax2 (JsNum.fin a) = JsNum.fin (l.foldl max a) := by
  induction l generalizing a with
  | nil => rfl
  | cons b bs ih => simp [List.foldl, jsMax2, ih]

theorem foldl_max_ge_init (a : Int) (l : List Int) : a ≤ l.foldl max a := by
  induction l generalizing a with
  | nil => simp
  | cons b bs ih => exact le_trans (le_max_left a b) (ih (max a b))

theorem foldl_max_ge (a : Int) (l : List Int) : ∀ i ∈ l, i ≤ l.foldl max a := by
  induction l generalizing a with
  | nil => simp
  | cons b bs ih =>
    intro i hi
    rcases List.mem_cons.1 hi with h | h
    · subst h
      exact le_trans (le_max_right a i) (foldl_max_ge_init (max a i) bs)
    · exact ih (max a b) i h

theorem foldl_max_mem (a : Int) (l : List Int) : l.foldl max a ∈ a :: l := by
  induction l generalizing a with
  | nil => simp
  | cons b bs ih =>
    have h := ih (max a b)
    rcases List.mem_cons.1 h with h | h
    · rcases max_choice a b with hm | hm
      · rw [List.foldl_cons, h, hm]; simp
      · rw [List.foldl_cons, h, hm]; simp
    · rw [List.foldl_cons]
      exact List.mem_cons_of_mem _ (List.mem_cons_of_mem _ h)

/-- On a non-empty list of integers `Math.max` is the greatest element. -/
theorem mathMax_int (i : Int) (is : List Int) :
    ∃ m, m ∈ i :: is ∧ (∀ j ∈ i :: is, j ≤ m) ∧
      mathMax ((i :: is).map JsNum.fin) = JsNum.fin m := by
  refine ⟨is.foldl max i, foldl_max_mem i is, ?_, ?_⟩
  · intro j hj
    rcases List.mem_cons.1 hj with h | h
    · subst h; exact foldl_max_ge_init j is
    · exact foldl_max_ge i is j h
  · simp only [mathMax, List.map_cons, List.foldl_cons, jsMax2]
    exact foldl_jsMax2_fin i is

theorem HasIds.length_eq {trades : List Obj} {ids : List Int} (h : HasIds trades ids) :
    trades.length = ids.length := by
  have := congrArg List.length h
  simpa using this

theorem ulpFrom_of_lt (fuel n u : Nat) (h : n / u < 2 ^ 53) : ulpFrom fuel n u = u := by
  cases fuel with
  | zero => rfl
  | succ f => rw [ulpFrom, if_pos h]

theorem roundNat_of_lt (n : Nat) (h : n < 2 ^ 53) : roundNat n = n := by
  have hu : ulpFrom n n 1 = 1 := ulpFrom_of_lt n n 1 (by simpa using h)
  simp only [roundNat, hu, Nat.mod_one, Nat.div_one, Nat.mul_one]
  simp

/-- The sum `z` of an integer and 1 is exact as long as it is at most 2^53 in
absolute value. -/
theorem toDouble_of_abs_le (z : Int) (h1 : -(2 ^ 53) ≤ z) (h2 : z ≤ 2 ^ 53) :
    toDouble z = z := by
  have hm : roundNat z.natAbs = z.natAbs := by
    by_cases hlt : z.natAbs < 2 ^ 53
    · exact roundNat_of_lt _ hlt
    · have : z.natAbs = 2 ^ 53 := by omega
      rw [this]; decide
  simp only [toDouble, hm]
  by_cases hz : z < 0
  · simp only [hz, if_true]; omega
  · simp only [hz, if_false]; omega

/-- What `getNextId` returns on a collection of safe integer ids that a call
can spread. -/
theorem getNextId_of_hasIds (E : Engine) (trades : List Obj) (ids : List Int)
    (h : HasIds trades ids) (hsafe : SafeIds ids) (hlen : trades.length ≤ E.maxArguments) :
    ∃ next : Int, getNextId E trades = some (JsNum.fin next) ∧
      (ids = [] → next = 1) ∧
      (ids ≠ [] → ∃ m ∈ ids, (∀ i ∈ ids, i ≤ m) ∧ next = 1 + m) := by
  cases ids with
  | nil =>
    have hl : trades.length = 0 := by simpa using h.length_eq
    exact ⟨1, by simp [getNextId, hl], fun _ => rfl, fun hne => absurd rfl hne⟩
  | cons i is =>
    have hl : trades.length ≠ 0 := by
      have := h.length_eq
      simp at this
      omega
    have hl2 : ¬ E.maxArguments < trades.length := by omega
    obtain ⟨m, hm, hle, hmax⟩ := mathMax_int i is
    refine ⟨1 + m, ?_, fun hnil => (by cases hnil), fun _ => ⟨m, hm, hle, rfl⟩⟩
    have hms := hsafe m hm
    have hexact : toDouble (m + 1) = m + 1 :=
      toDouble_of_abs_le (m + 1) (by omega) (by omega)
    unfold HasIds at h
    simp only [getNextId, hl, hl2, if_false, h, toNumbers_int, hmax, jsAdd1, hexact]
    rw [add_comm]

/-- The id `getNextId` returned, when it returned one, on a collection of
safe integer ids. -/
theorem getNextId_eq_of_hasIds (E : Engine) (trades : List Obj) (ids : List Int) (x : JsNum)
    (h : HasIds trades ids) (hsafe : SafeIds ids) (hx : getNextId E trades = some x) :
    ∃ next : Int, x = JsNum.fin next ∧
      (ids = [] → next = 1) ∧
      (ids ≠ [] → ∃ m ∈ ids, (∀ i ∈ ids, i ≤ m) ∧ next = 1 + m) := by
  have hlen : trades.length ≤ E.maxArguments := by
    by_contra hc
    have h0 : trades.length ≠ 0 := by omega
    have h1 : E.maxArguments < trades.length := by omega
    simp [getNextId, h0, h1] at hx
  obtain ⟨next, hn, h1, h2⟩ := getNextId_of_hasIds E trades ids h hsafe hlen
  rw [hx] at hn
  exact ⟨next, by injection hn, h1, h2⟩

theorem postTrade_of_valid (E : Engine) (body : Obj) (trades : List Obj) (next : JsNum)
    (hv : Valid E body) (hn : getNextId E trades = some next) :
    postTrade E (some body) trades =
      { reply := Reply.json 201 (JsVal.obj (setProp body "id" (JsVal.num next))), reads := 1,
        written := some (trades ++ [setProp body "id" (JsVal.num next)]) } := by
  simp [postTrade, hv.1, hv.2, hn]

/-! ## Properties of the collection -/

theorem hasIds_nil_iff (ids : List Int) : HasIds [] ids ↔ ids = [] := by
  cases ids <;> simp [HasIds]

theorem hasIds_cons_iff (t : Obj) (ts : List Obj) (ids : List Int) :
    HasIds (t :: ts) ids ↔
      ∃ i is, ids = i :: is ∧ getProp t "id" = some (JsVal.int i) ∧ HasIds ts is := by
  cases ids with
  | nil => simp [HasIds]
  | cons i is =>
    simp only [HasIds, List.map_cons, List.cons.injEq]
    constructor
    · rintro ⟨h1, h2⟩
      exact ⟨i, is, ⟨rfl, rfl⟩, h1, h2⟩
    · rintro ⟨j, js, ⟨rfl, rfl⟩, h1, h2⟩
      exact ⟨h1, h2⟩

theorem HasIds.mem {trades : List Obj} {ids : List Int} (h : HasIds trades ids) :
    ∀ t ∈ trades, ∃ i ∈ ids, getProp t "id" = some (JsVal.int i) := by
  induction trades generalizing ids with
  | nil => simp
  | cons t ts ih =>
    obtain ⟨i, is, rfl, hi, hts⟩ := (hasIds_cons_iff t ts ids).1 h
    intro u hu
    rcases List.mem_cons.1 hu with hu | hu
    · subst hu; exact ⟨i, by simp, hi⟩
    · obtain ⟨j, hj, hju⟩ := ih hts u hu
      exact ⟨j, List.mem_cons_of_mem _ hj, hju⟩

theorem HasIds.mem_ids {trades : List Obj} {ids : List Int} (h : HasIds trades ids) :
    ∀ i ∈ ids, ∃ t ∈ trades, getProp t "id" = some (JsVal.int i) := by
  induction trades generalizing ids with
  | nil =>
    have := (hasIds_nil_iff ids).1 h
    subst this
    simp
  | cons t ts ih =>
    obtain ⟨i, is, rfl, hi, hts⟩ := (hasIds_cons_iff t ts ids).1 h
    intro j hj
    rcases List.mem_cons.1 hj with hj | hj
    · subst hj; exact ⟨t, by simp, hi⟩
    · obtain ⟨u, hu, hju⟩ := ih hts j hj
      exact ⟨u, List.mem_cons_of_mem _ hu, hju⟩

theorem HasIds.append {trades : List Obj} {ids : List Int} (h : HasIds trades ids)
    (t : Obj) (i : Int) (ht : getProp t "id" = some (JsVal.int i)) :
    HasIds (trades ++ [t]) (ids ++ [i]) := by
  unfold HasIds at h ⊢
  simp [h, ht]

theorem HasIds.filter {trades : List Obj} {ids : List Int} (h : HasIds trades ids)
    (p : Obj → Bool) : ∃ ids', ids'.Sublist ids ∧ HasIds (trades.filter p) ids' := by
  induction trades generalizing ids with
  | nil =>
    have := (hasIds_nil_iff ids).1 h
    subst this
    exact ⟨[], List.Sublist.refl _, by simp [HasIds]⟩
  | cons t ts ih =>
    obtain ⟨i, is, rfl, hi, hts⟩ := (hasIds_cons_iff t ts ids).1 h
    obtain ⟨js, hsub, hjs⟩ := ih hts
    by_cases hp : p t = true
    · refine ⟨i :: js, hsub.cons₂ i, ?_⟩
      rw [List.filter_cons_of_pos hp]
      exact (hasIds_cons_iff _ _ _).2 ⟨i, js, rfl, hi, hjs⟩
    · refine ⟨js, hsub.cons i, ?_⟩
      rw [List.filter_cons_of_neg hp]
      exact hjs

theorem map_set_of_eq {α β : Type} (f : α → β) (xs : List α) (i : Nat) (a t : α)
    (h : xs[i]? = some t) (hf : f a = f t) : (xs.set i a).map f = xs.map f := by
  induction xs generalizing i with
  | nil => simp at h
  | cons x xs ih =>
    cases i with
    | zero =>
      simp at h
      subst h
      simp [hf]
    | succ i =>
      simp at h
      simp [ih i h]

theorem HasIds.set_price {trades : List Obj} {ids : List Int} (h : HasIds trades ids)
    (i : Nat) (t : Obj) (v : JsVal) (ht : trades[i]? = some t) :
    HasIds (trades.set i (setProp t "price" v)) ids := by
  unfold HasIds at h ⊢
  rw [map_set_of_eq (fun t => getProp t "id") trades i _ t ht
    (getProp_setProp_of_ne t "price" "id" v (by decide))]
  exact h

theorem idIs_int_iff (t : Obj) (n : Int) :
    idIs (JsNum.fin n) t = true ↔ getProp t "id" = some (JsVal.int n) := by
  unfold idIs strictEqNum
  cases hg : getProp t "id" with
  | none => simp
  | some v =>
    cases v with
    | num x => cases x <;> simp [JsVal.int, eq_comm]
    | _ => simp [JsVal.int]

theorem idIs_nan (t : Obj) : idIs JsNum.nan t = false := by
  unfold idIs strictEqNum
  cases hg : getProp t "id" with
  | none => rfl
  | some v =>
    cases v with
    | num x => cases x <;> rfl
    | _ => rfl

/-- The first match of `findIndex` is the element `find` returns. -/
theorem findIdx?_find? {α : Type} (p : α → Bool) (xs : List α) :
    (xs.findIdx? p = none ∧ xs.find? p = none) ∨
      ∃ i t, xs.findIdx? p = some i ∧ xs[i]? = some t ∧ xs.find? p = some t ∧ p t = true := by
  induction xs with
  | nil => left; simp
  | cons x xs ih =>
    by_cases hx : p x = true
    · right
      exact ⟨0, x, by simp [hx], by simp, by simp [hx], hx⟩
    · rcases ih with ⟨h1, h2⟩ | ⟨i, t, h1, h2, h3, h4⟩
      · left
        constructor
        · rw [List.findIdx?_cons, if_neg hx, List.findIdx?_succ, h1]; rfl
        · rw [List.find?_cons_of_neg _ hx, h2]
      · right
        refine ⟨i + 1, t, ?_, by simpa using h2, ?_, h4⟩
        · rw [List.findIdx?_cons, if_neg hx, List.findIdx?_succ, h1]; rfl
        · rw [List.find?_cons_of_neg _ hx, h3]

/-! ## Properties of the handlers -/

theorem postTrade_undefined (E : Engine) (trades : List Obj) :
    postTrade E none trades = { reply := Reply.threw, reads := 0, written := none } := rfl

theorem patchTrade_undefined (id : JsNum) (trades : List Obj) :
    patchTrade id none trades = { reply := Reply.threw, reads := 0, written := none } := rfl

/-- The three ways a Create can go. -/
theorem postTrade_cases (E : Engine) (body : Option Obj) (trades : List Obj) :
    ((postTrade E body trades).reply = Reply.threw ∧ (postTrade E body trades).written = none) ∨
      postTrade E body trades = { reply := invalidTrade, reads := 0, written := none } ∨
      ∃ fields next, body = some fields ∧ Valid E fields ∧ getNextId E trades = some next ∧
        postTrade E body trades =
          { reply := Reply.json 201 (JsVal.obj (setProp fields "id" (JsVal.num next))),
            reads := 1, written := some (trades ++ [setProp fields "id" (JsVal.num next)]) } := by
  cases body with
  | none => left; exact ⟨rfl, rfl⟩
  | some fields =>
    cases h1 : validateTrade (some fields) with
    | none => left; simp [postTrade, h1]
    | some b =>
      cases b with
      | false => right; left; simp [postTrade, h1]
      | true =>
        cases h2 : validateShares E (getProp fields "shares") with
        | none => left; simp [postTrade, h1, h2]
        | some c =>
          cases c with
          | false => right; left; simp [postTrade, h1, h2]
          | true =>
            cases hn : getNextId E trades with
            | none => left; simp [postTrade, h1, h2, hn]
            | some next =>
              right; right
              exact ⟨fields, next, rfl, ⟨h1, h2⟩, rfl,
                postTrade_of_valid E fields trades next ⟨h1, h2⟩ hn⟩

theorem patchTrade_of_not_number (id : JsNum) (body : Obj) (trades : List Obj)
    (h : ∀ p, getProp body "price" ≠ some (JsVal.num p)) :
    patchTrade id (some body) trades
      = { reply := invalidPrice, reads := 0, written := none } := by
  cases hg : getProp body "price" with
  | none => simp [patchTrade, hg]
  | some v =>
    cases v with
    | num p => exact absurd hg (h p)
    | _ => simp [patchTrade, hg]

theorem patchTrade_of_absent (id : JsNum) (body : Obj) (trades : List Obj) (p : JsNum)
    (hp : getProp body "price" = some (JsVal.num p)) (h : trades.find? (idIs id) = none) :
    patchTrade id (some body) trades = { reply := notFound, reads := 1, written := none } := by
  rcases findIdx?_find? (idIs id) trades with ⟨h1, _⟩ | ⟨i, t, _, _, h3, _⟩
  · simp [patchTrade, hp, h1]
  · rw [h] at h3; cases h3

theorem patchTrade_of_found (id : JsNum) (body : Obj) (trades : List Obj) (p : JsNum)
    (t : Obj) (hp : getProp body "price" = some (JsVal.num p))
    (h : trades.find? (idIs id) = some t) :
    ∃ i, trades[i]? = some t ∧ trades.findIdx? (idIs id) = some i ∧
      patchTrade id (some body) trades =
        { reply := Reply.json 200 (JsVal.obj (setProp t "price" (JsVal.num p))), reads := 1,
          written := some (trades.set i (setProp t "price" (JsVal.num p))) } := by
  rcases findIdx?_find? (idIs id) trades with ⟨_, h2⟩ | ⟨i, u, h1, h2, h3, _⟩
  · rw [h] at h2; cases h2
  · rw [h] at h3
    cases h3
    exact ⟨i, h2, h1, by simp [patchTrade, hp, h1, h2]⟩

/-- The four ways an Update price can go. -/
theorem patchTrade_cases (id : JsNum) (body : Option Obj) (trades : List Obj) :
    (body = none ∧
        patchTrade id body trades = { reply := Reply.threw, reads := 0, written := none }) ∨
      ((∃ fields, body = some fields ∧ ¬ ∃ p, getProp fields "price" = some (JsVal.num p)) ∧
        patchTrade id body trades = { reply := invalidPrice, reads := 0, written := none }) ∨
      ((∃ fields p, body = some fields ∧ getProp fields "price" = some (JsVal.num p)) ∧
        trades.find? (idIs id) = none ∧
        patchTrade id body trades = { reply := notFound, reads := 1, written := none }) ∨
      ∃ fields p t i, body = some fields ∧ getProp fields "price" = some (JsVal.num p) ∧
        trades.find? (idIs id) = some t ∧
        trades.findIdx? (idIs id) = some i ∧ trades[i]? = some t ∧
        patchTrade id body trades =
          { reply := Reply.json 200 (JsVal.obj (setProp t "price" (JsVal.num p))), reads := 1,
            written := some (trades.set i (setProp t "price" (JsVal.num p))) } := by
  cases body with
  | none => left; exact ⟨rfl, rfl⟩
  | some fields =>
    right
    by_cases hp : ∃ p, getProp fields "price" = some (JsVal.num p)
    · obtain ⟨p, hp'⟩ := hp
      cases hf : trades.find? (idIs id) with
      | none =>
        right; left
        exact ⟨⟨fields, p, rfl, hp'⟩, rfl, patchTrade_of_absent id fields trades p hp' hf⟩
      | some t =>
        right; right
        obtain ⟨i, hi, hidx, hpt⟩ := patchTrade_of_found id fields trades p t hp' hf
        exact ⟨fields, p, t, i, rfl, hp', rfl, hidx, hi, hpt⟩
    · left
      exact ⟨⟨fields, rfl, hp⟩,
        patchTrade_of_not_number id fields trades (fun p hq => hp ⟨p, hq⟩)⟩

theorem getTrade_reads_written (id : JsNum) (trades : List Obj) :
    (getTrade id trades).reads = 1 ∧ (getTrade id trades).written = none := by
  unfold getTrade
  split <;> exact ⟨rfl, rfl⟩

/-! ## The claims settled on the handlers -/

/-- C3: evaluation of Create at a body that has all five required fields and
`shares` 15 but also an own property named `hasOwnProperty`: the handler
neither answers 201 nor 400, the call `trade.hasOwnProperty(field)` throws. -/
theorem create_throws_on_shadowed_hasOwnProperty (E : Engine) (trades : List Obj) :
    (∀ field ∈ requiredFields, hasOwn shadowBody field = true) ∧
      getProp shadowBody "shares" = some (JsVal.int 15) ∧
      validateShares E (getProp shadowBody "shares") = some true ∧
      postTrade E shadowBody trades = { reply := Reply.threw, reads := 0, written := none } :=
  ⟨by decide, rfl, rfl, rfl⟩

/-- Create on a body without an own property `hasOwnProperty` whose `shares`
is a number: 400 'Invalid trade data' exactly when a required field is
missing or `shares` is outside 10..30, and 201 with the id of `getNextId`
otherwise (`getNextId` having returned one). -/
theorem postTrade_reply_of_plain_body (E : Engine) (body : Obj) (trades : List Obj)
    (next s : JsNum) (hn : getNextId E trades = some next)
    (hplain : hasOwn body "hasOwnProperty" = false)
    (hs : ∀ v, getProp body "shares" = some v → v = JsVal.num s) :
    ((postTrade E body trades).reply = invalidTrade ↔
      ((∃ field ∈ requiredFields, hasOwn body field = false) ∨
        ¬ ∃ n : Int, s = JsNum.fin n ∧ 10 ≤ n ∧ n ≤ 30)) ∧
    ((postTrade E body trades).reply ≠ invalidTrade →
      (postTrade E body trades).reply
        = Reply.json 201 (JsVal.obj (setProp body "id" (JsVal.num next)))) := by
  by_cases hall : requiredFields.all (fun field => hasOwn body field) = true
  · have hsh : hasOwn body "shares" = true := by
      have := List.all_eq_true.1 hall "shares" (by decide)
      simpa using this
    have hget : getProp body "shares" = some (JsVal.num s) := by
      cases hg : getProp body "shares" with
      | none =>
        exfalso
        clear hs hall
        induction body with
        | nil => simp [hasOwn] at hsh
        | cons p rest ih =>
          obtain ⟨k, v⟩ := p
          by_cases hk : (k == "shares") = true
          · simp [getProp, hk] at hg
          · simp only [getProp, hk] at hg
            simp only [hasOwn, List.any_cons, hk, Bool.false_or] at hsh
            simp only [hasOwn, List.any_cons, Bool.or_eq_false_iff] at hplain
            exact ih (by simpa [hasOwn] using hplain.2) (by simpa [hasOwn] using hsh)
              (by simpa using hg)
      | some v => rw [hs v hg]
    have hno : ¬ ∃ field ∈ requiredFields, hasOwn body field = false := by
      rintro ⟨f, hf, hfalse⟩
      have := List.all_eq_true.1 hall f hf
      simp [hfalse] at this
    cases s with
    | fin n =>
      by_cases hr : 10 ≤ n ∧ n ≤ 30
      · have hp : postTrade E body trades =
            { reply := Reply.json 201 (JsVal.obj (setProp body "id" (JsVal.num next))),
              reads := 1, written := some (trades ++ [setProp body "id" (JsVal.num next)]) } := by
          apply postTrade_of_valid E body trades _ _ hn
          exact ⟨by simp [validateTrade, hplain, hall],
            by simp [validateShares, hget, toNumber, jsGe, jsLe, hr.1, hr.2]⟩
        rw [hp]
        refine ⟨?_, fun _ => rfl⟩
        simp only [invalidTrade, Reply.json.injEq]
        constructor
        · intro h; omega
        · rintro (h | h)
          · exact absurd h hno
          · exact absurd ⟨n, rfl, hr.1, hr.2⟩ h
      · have hp : (postTrade E body trades).reply = invalidTrade := by
          have hb : (decide (10 ≤ n) && decide (n ≤ 30)) = false := by
            by_cases h1 : 10 ≤ n
            · have h2 : ¬ n ≤ 30 := fun h2 => hr ⟨h1, h2⟩
              simp [h1, h2]
            · simp [h1]
          simp [postTrade, validateTrade, hplain, hall, validateShares, hget, toNumber, jsGe,
            jsLe, hb]
        refine ⟨⟨fun _ => Or.inr ?_, fun _ => hp⟩, fun h => absurd hp h⟩
        rintro ⟨m, hm, h1, h2⟩
        cases hm
        exact hr ⟨h1, h2⟩
    | nan =>
      have hp : (postTrade E body trades).reply = invalidTrade := by
        simp [postTrade, validateTrade, hplain, hall, validateShares, hget, toNumber, jsGe]
      exact ⟨⟨fun _ => Or.inr (by simp), fun _ => hp⟩, fun h => absurd hp h⟩
    | negInf =>
      have hp : (postTrade E body trades).reply = invalidTrade := by
        simp [postTrade, validateTrade, hplain, hall, validateShares, hget, toNumber, jsGe]
      exact ⟨⟨fun _ => Or.inr (by simp), fun _ => hp⟩, fun h => absurd hp h⟩
    | posInf =>
      have hp : (postTrade E body trades).reply = invalidTrade := by
        simp [postTrade, validateTrade, hplain, hall, validateShares, hget, toNumber, jsGe, jsLe]
      exact ⟨⟨fun _ => Or.inr (by simp), fun _ => hp⟩, fun h => absurd hp h⟩
  · have hp : (postTrade E body trades).reply = invalidTrade := by
      simp [postTrade, validateTrade, hplain, hall]
    refine ⟨⟨fun _ => Or.inl ?_, fun _ => hp⟩, fun h => absurd hp h⟩
    by_contra hcon
    apply hall
    rw [List.all_eq_true]
    intro f hf
    by_contra hfalse
    exact hcon ⟨f, hf, by simpa using hfalse⟩

/-- The range test on numbers: `validateShares(s)` is true exactly when
`10 <= s <= 30`; 10 and 30 pass, 9 and 31 do not. -/
theorem validateShares_int (E : Engine) (n : Int) :
    (validateShares E (some (JsVal.int n)) = some true ↔ 10 ≤ n ∧ n ≤ 30) ∧
      validateShares E (some (JsVal.int 10)) = some true ∧
      validateShares E (some (JsVal.int 30)) = some true ∧
      validateShares E (some (JsVal.int 9)) = some false ∧
      validateShares E (some (JsVal.int 31)) = some false := by
  refine ⟨?_, rfl, rfl, rfl, rfl⟩
  simp [validateShares, toNumber, jsGe, jsLe]

/-- C6: Delete answers 204, a second Delete of the same id right after it
answers 204 again, and the second leaves the collection as the first left it. -/
theorem delete_idempotent (id : JsNum) (trades : List Obj) :
    (deleteTrade id trades).reply = Reply.bare 204 ∧
      (deleteTrade id ((deleteTrade id trades).store trades)).reply = Reply.bare 204 ∧
      (deleteTrade id ((deleteTrade id trades).store trades)).store
          ((deleteTrade id trades).store trades)
        = (deleteTrade id trades).store trades := by
  refine ⟨rfl, rfl, ?_⟩
  simp [deleteTrade, Outcome.store, List.filter_filter]

theorem find?_none_iff_no_match (id : JsNum) (trades : List Obj) :
    trades.find? (idIs id) = none ↔ ∀ t ∈ trades, idIs id t = false := by
  rw [List.find?_eq_none]
  constructor
  · intro h t ht
    simpa using h t ht
  · intro h t ht
    simp [h t ht]

/-- C8: for every collection and integer id, Get answers 200 with a trade of
the collection whose id is the requested one when there is such a trade, and
answers 404 'Trade not found' exactly when there is none; Get of 999 on the
empty collection is 404. -/
theorem get_reply (n : Int) (trades : List Obj) :
    ((∃ t ∈ trades, getProp t "id" = some (JsVal.int n)) →
        ∃ t ∈ trades, getProp t "id" = some (JsVal.int n) ∧
          (getTrade (JsNum.fin n) trades).reply = Reply.json 200 (JsVal.obj t)) ∧
      ((getTrade (JsNum.fin n) trades).reply = Reply.json 404 (message "Trade not found") ↔
        ∀ t ∈ trades, getProp t "id" ≠ some (JsVal.int n)) ∧
      (getTrade (JsNum.fin 999) []).reply = Reply.json 404 (message "Trade not found") := by
  have key : ((getTrade (JsNum.fin n) trades).reply = notFound ∧
        ∀ t ∈ trades, getProp t "id" ≠ some (JsVal.int n)) ∨
      ∃ t ∈ trades, getProp t "id" = some (JsVal.int n) ∧
        (getTrade (JsNum.fin n) trades).reply = Reply.json 200 (JsVal.obj t) := by
    cases hf : trades.find? (idIs (JsNum.fin n)) with
    | none =>
      left
      refine ⟨by simp [getTrade, hf], ?_⟩
      intro t ht hid
      have := (find?_none_iff_no_match _ trades).1 hf t ht
      rw [(idIs_int_iff t n).2 hid] at this
      cases this
    | some t =>
      right
      exact ⟨t, List.mem_of_find?_eq_some hf, (idIs_int_iff t n).1 (List.find?_some hf),
        by simp [getTrade, hf]⟩
  refine ⟨?_, ⟨?_, ?_⟩, rfl⟩
  · rintro ⟨u, hu, hid⟩
    rcases key with ⟨_, h2⟩ | h
    · exact absurd hid (h2 u hu)
    · exact h
  · intro h
    rcases key with ⟨_, h2⟩ | ⟨t, _, _, h1⟩
    · exact h2
    · rw [h1] at h
      simp at h
  · intro h
    rcases key with ⟨h1, _⟩ | ⟨t, ht, hid, _⟩
    · exact h1
    · exact absurd hid (h t ht)

theorem get_reply_witness :
    (∃ t ∈ [sampleTrade 1, sampleTrade 3], getProp t "id" = some (JsVal.int 3)) ∧
      ∃ t ∈ [sampleTrade 1, sampleTrade 3], getProp t "id" = some (JsVal.int 3) ∧
        (getTrade (JsNum.fin 3) [sampleTrade 1, sampleTrade 3]).reply
          = Reply.json 200 (JsVal.obj t) :=
  ⟨⟨sampleTrade 3, by simp, rfl⟩,
    (get_reply 3 [sampleTrade 1, sampleTrade 3]).1 ⟨sampleTrade 3, by simp, rfl⟩⟩

/-- C9: evaluation of `validateTrade` at a candidate object that has each of
the five required fields and an own property named `hasOwnProperty`: the
function does not return true, it throws. -/
theorem validateTrade_throws_on_shadowed_hasOwnProperty :
    hasOwn shadowBody "type" = true ∧ hasOwn shadowBody "user_id" = true ∧
      hasOwn shadowBody "symbol" = true ∧ hasOwn shadowBody "shares" = true ∧
      hasOwn shadowBody "price" = true ∧ validateTrade shadowBody = none :=
  ⟨rfl, rfl, rfl, rfl, rfl, rfl⟩

/-- On a candidate without an own property `hasOwnProperty`, `validateTrade`
returns true exactly when the five fields are present, whatever their values. -/
theorem validateTrade_of_plain (trade : Obj) (h : hasOwn trade "hasOwnProperty" = false) :
    validateTrade trade = some true ↔
      hasOwn trade "type" = true ∧ hasOwn trade "user_id" = true ∧
        hasOwn trade "symbol" = true ∧ hasOwn trade "shares" = true ∧
        hasOwn trade "price" = true := by
  simp [validateTrade, h, requiredFields, and_assoc]

/-- C15 as stated fails: a Create whose body has `shares` 9 is answered 400
before the collection is read; it performs no `readTrades` and no
`writeTrades`. -/
theorem create_rejected_no_read_counterexample :
    (handle nanEngine (Request.create (sampleBody 9)) []).reply
        = Reply.json 400 (message "Invalid trade data") ∧
      (handle nanEngine (Request.create (sampleBody 9)) []).reads = 0 ∧
      (handle nanEngine (Request.create (sampleBody 9)) []).writes = 0 ∧
      ¬ ((handle nanEngine (Request.create (sampleBody 9)) []).reads = 1 ∧
        (handle nanEngine (Request.create (sampleBody 9)) []).writes = 1) :=
  ⟨rfl, rfl, rfl, by decide⟩

/-- C15, amended: every Delete, every Create answered 201 and every Update
price answered 200 performs exactly one `readTrades` and one `writeTrades`; a
Create or Update price answered 400 performs neither; an Update price
answered 404 performs one `readTrades` and no `writeTrades`; every List and
every Get performs exactly one `readTrades` and no `writeTrades`. -/
theorem reads_and_writes (E : Engine) (trades : List Obj) :
    (∀ id, (handle E (Request.delete id) trades).reads = 1 ∧
        (handle E (Request.delete id) trades).writes = 1) ∧
      (∀ body t, (handle E (Request.create body) trades).reply = Reply.json 201 t →
        (handle E (Request.create body) trades).reads = 1 ∧
        (handle E (Request.create body) trades).writes = 1) ∧
      (∀ id body t, (handle E (Request.updatePrice id body) trades).reply = Reply.json 200 t →
        (handle E (Request.updatePrice id body) trades).reads = 1 ∧
        (handle E (Request.updatePrice id body) trades).writes = 1) ∧
      (∀ body t, (handle E (Request.create body) trades).reply = Reply.json 400 t →
        (handle E (Request.create body) trades).reads = 0 ∧
        (handle E (Request.create body) trades).writes = 0) ∧
      (∀ id body t, (handle E (Request.updatePrice id body) trades).reply = Reply.json 400 t →
        (handle E (Request.updatePrice id body) trades).reads = 0 ∧
        (handle E (Request.updatePrice id body) trades).writes = 0) ∧
      (∀ id body t, (handle E (Request.updatePrice id body) trades).reply = Reply.json 404 t →
        (handle E (Request.updatePrice id body) trades).reads = 1 ∧
        (handle E (Request.updatePrice id body) trades).writes = 0) ∧
      ((handle E Request.list trades).reads = 1 ∧ (handle E Request.list trades).writes = 0) ∧
      (∀ id, (handle E (Request.get id) trades).reads = 1 ∧
        (handle E (Request.get id) trades).writes = 0) := by
  refine ⟨fun id => ⟨rfl, rfl⟩, ?_, ?_, ?_, ?_, ?_, ⟨rfl, rfl⟩, ?_⟩
  · intro body t h
    simp only [handle] at h ⊢
    rcases postTrade_cases E body trades with ⟨h1, _⟩ | h1 | ⟨fields, next, _, _, _, h1⟩
    · rw [h1] at h; cases h
    · rw [h1] at h; simp [invalidTrade] at h
    · rw [h1]; exact ⟨rfl, rfl⟩
  · intro id body t h
    simp only [handle] at h ⊢
    rcases patchTrade_cases id body trades with
      ⟨_, h1⟩ | ⟨_, h1⟩ | ⟨_, _, h1⟩ | ⟨fields, p, u, i, _, _, _, _, _, h1⟩
    · rw [h1] at h; cases h
    · rw [h1] at h; simp [invalidPrice] at h
    · rw [h1] at h; simp [notFound] at h
    · rw [h1]; exact ⟨rfl, rfl⟩
  · intro body t h
    simp only [handle] at h ⊢
    rcases postTrade_cases E body trades with ⟨h1, _⟩ | h1 | ⟨fields, next, _, _, _, h1⟩
    · rw [h1] at h; cases h
    · rw [h1]; exact ⟨rfl, rfl⟩
    · rw [h1] at h; simp at h
  · intro id body t h
    simp only [handle] at h ⊢
    rcases patchTrade_cases id body trades with
      ⟨_, h1⟩ | ⟨_, h1⟩ | ⟨_, _, h1⟩ | ⟨fields, p, u, i, _, _, _, _, _, h1⟩
    · rw [h1] at h; cases h
    · rw [h1]; exact ⟨rfl, rfl⟩
    · rw [h1] at h; simp [notFound] at h
    · rw [h1] at h; simp at h
  · intro id body t h
    simp only [handle] at h ⊢
    rcases patchTrade_cases id body trades with
      ⟨_, h1⟩ | ⟨_, h1⟩ | ⟨_, _, h1⟩ | ⟨fields, p, u, i, _, _, _, _, _, h1⟩
    · rw [h1] at h; cases h
    · rw [h1] at h; simp [invalidPrice] at h
    · rw [h1]; exact ⟨rfl, rfl⟩
    · rw [h1] at h; simp at h
  · intro id
    have := getTrade_reads_written id trades
    simp only [handle, Outcome.writes, this.1, this.2]
    exact ⟨trivial, trivial⟩

theorem reads_and_writes_witness :
    ((handle nanEngine (Request.create (sampleBody 15)) [sampleTrade 1]).reads = 1 ∧
        (handle nanEngine (Request.create (sampleBody 15)) [sampleTrade 1]).writes = 1) ∧
      ((handle nanEngine (Request.updatePrice (JsNum.fin 1) [("price", JsVal.int 42)])
          [sampleTrade 1]).reads = 1 ∧
        (handle nanEngine (Request.updatePrice (JsNum.fin 1) [("price", JsVal.int 42)])
          [sampleTrade 1]).writes = 1) ∧
      ((handle nanEngine (Request.create (sampleBody 9)) [sampleTrade 1]).reads = 0 ∧
        (handle nanEngine (Request.create (sampleBody 9)) [sampleTrade 1]).writes = 0) ∧
      ((handle nanEngine (Request.updatePrice (JsNum.fin 1) [("price", JsVal.str "abc")])
          [sampleTrade 1]).reads = 0 ∧
        (handle nanEngine (Request.updatePrice (JsNum.fin 1) [("price", JsVal.str "abc")])
          [sampleTrade 1]).writes = 0) ∧
      ((handle nanEngine (Request.updatePrice (JsNum.fin 2) [("price", JsVal.int 42)])
          [sampleTrade 1]).reads = 1 ∧
        (handle nanEngine (Request.updatePrice (JsNum.fin 2) [("price", JsVal.int 42)])
          [sampleTrade 1]).writes = 0) :=
  ⟨(reads_and_writes nanEngine [sampleTrade 1]).2.1 (sampleBody 15) _ rfl,
    (reads_and_writes nanEngine [sampleTrade 1]).2.2.1 (JsNum.fin 1)
      [("price", JsVal.int 42)] _ rfl,
    (reads_and_writes nanEngine [sampleTrade 1]).2.2.2.1 (sampleBody 9) _ rfl,
    (reads_and_writes nanEngine [sampleTrade 1]).2.2.2.2.1 (JsNum.fin 1)
      [("price", JsVal.str "abc")] _ rfl,
    (reads_and_writes nanEngine [sampleTrade 1]).2.2.2.2.2.1 (JsNum.fin 2)
      [("price", JsVal.int 42)] _ rfl⟩

/-- C16: a request answered 400 or 404 (a Create with an invalid shape or
shares, an Update price with a price that is not a number or with an unknown
id, a Get of an unknown id) hands nothing to `writeTrades` and leaves the
collection exactly as it was. -/
theorem rejection_leaves_collection (E : Engine) (req : Request) (trades : List Obj)
    (t : JsVal)
    (h : (handle E req trades).reply = Reply.json 400 t ∨
      (handle E req trades).reply = Reply.json 404 t) :
    (handle E req trades).written = none ∧ (handle E req trades).store trades = trades := by
  have key : (handle E req trades).written = none := by
    cases req with
    | list => rfl
    | get id => exact (getTrade_reads_written id trades).2
    | create body =>
      simp only [handle] at h ⊢
      rcases postTrade_cases E body trades with ⟨_, h1⟩ | h1 | ⟨fields, next, _, _, _, h1⟩
      · exact h1
      · rw [h1]
      · rw [h1] at h
        simp at h
    | updatePrice id body =>
      simp only [handle] at h ⊢
      rcases patchTrade_cases id body trades with
        ⟨_, h1⟩ | ⟨_, h1⟩ | ⟨_, _, h1⟩ | ⟨fields, p, u, i, _, _, _, _, _, h1⟩
      · rw [h1]
      · rw [h1]
      · rw [h1]
      · rw [h1] at h
        simp at h
    | delete id =>
      simp [handle, deleteTrade] at h
  exact ⟨key, by simp [Outcome.store, key]⟩

theorem rejection_leaves_collection_witness :
    ((handle nanEngine (Request.create (sampleBody 31)) [sampleTrade 1]).reply
          = Reply.json 400 (message "Invalid trade data") ∨
        (handle nanEngine (Request.create (sampleBody 31)) [sampleTrade 1]).reply
          = Reply.json 404 (message "Invalid trade data")) ∧
      (handle nanEngine (Request.create (sampleBody 31)) [sampleTrade 1]).written = none ∧
      (handle nanEngine (Request.create (sampleBody 31)) [sampleTrade 1]).store [sampleTrade 1]
        = [sampleTrade 1] :=
  ⟨Or.inl rfl,
    rejection_leaves_collection nanEngine (Request.create (sampleBody 31)) [sampleTrade 1]
      (message "Invalid trade data") (Or.inl rfl)⟩

/-! ## Properties of the storage -/

mutual
theorem jsonValue_of_allFinite : ∀ v, allFinite v = true → jsonValue v = v
  | JsVal.null, _ => by simp [jsonValue]
  | JsVal.bool _, _ => by simp [jsonValue]
  | JsVal.str _, _ => by simp [jsonValue]
  | JsVal.num (JsNum.fin _), _ => by simp [jsonValue]
  | JsVal.num JsNum.nan, h => by simp [allFinite] at h
  | JsVal.num JsNum.posInf, h => by simp [allFinite] at h
  | JsVal.num JsNum.negInf, h => by simp [allFinite] at h
  | JsVal.arr xs, h => by
    simp only [allFinite] at h
    simp [jsonValue, jsonValues_of_allFinite xs h]
  | JsVal.obj ps, h => by
    simp only [allFinite] at h
    simp [jsonValue, jsonProps_of_allFinite ps h]
theorem jsonValues_of_allFinite : ∀ vs, allFiniteValues vs = true → jsonValues vs = vs
  | [], _ => by simp [jsonValues]
  | v :: vs, h => by
    simp only [allFiniteValues, Bool.and_eq_true] at h
    simp [jsonValues, jsonValue_of_allFinite v h.1, jsonValues_of_allFinite vs h.2]
theorem jsonProps_of_allFinite : ∀ ps, allFiniteProps ps = true → jsonProps ps = ps
  | [], _ => by simp [jsonProps]
  | (k, v) :: ps, h => by
    simp only [allFiniteProps, Bool.and_eq_true] at h
    simp [jsonProps, jsonValue_of_allFinite v h.1, jsonProps_of_allFinite ps h.2]
end

/-- What `readTrades` returns is an empty array or a truthy value. -/
theorem readTrades_truthy (d : Disk) : truthy (readTrades d) = true := by
  cases h1 : readFileSync d with
  | none => simp [readTrades, h1, truthy]
  | some data =>
    cases h2 : jsonParse data with
    | none => simp [readTrades, h1, h2, truthy]
    | some v =>
      by_cases hv : truthy v = true
      · simp [readTrades, h1, h2, hv]
      · simp only [readTrades, h1, h2, hv]
        rfl

/-- Reading after a successful or failed write of a truthy value. -/
theorem readTrades_writeTrades (v : JsVal) (d : Disk) (hv : truthy (jsonValue v) = true) :
    readTrades (writeTrades v d) = if d.writable then
      (if d.readable then jsonValue v else JsVal.arr []) else readTrades d := by
  by_cases hw : d.writable = true
  · by_cases hr : d.readable = true
    · simp [writeTrades, writeFileSync, hw, hr, readTrades, readFileSync, jsonStringify,
        jsonParse, hv]
    · simp [writeTrades, writeFileSync, hw, hr, readTrades, readFileSync]
  · simp [writeTrades, writeFileSync, hw]

/-- A collection of finite numbers handed to `writeTrades` on a readable and
writable storage is what the next `readTrades` returns. -/
theorem readTrades_after_write (trades : List Obj) (d : Disk) (hw : d.writable = true)
    (hr : d.readable = true) (hf : allFinite (JsVal.arr (trades.map JsVal.obj)) = true) :
    readTrades (writeTrades (JsVal.arr (trades.map JsVal.obj)) d)
      = JsVal.arr (trades.map JsVal.obj) := by
  have hj := jsonValue_of_allFinite _ hf
  rw [readTrades_writeTrades _ _ (by rw [hj]; rfl), hj]
  simp [hw, hr]

theorem jsonValues_map_obj (trades : List Obj) :
    jsonValues (trades.map JsVal.obj) = (trades.map jsonProps).map JsVal.obj := by
  induction trades with
  | nil => rfl
  | cons t ts ih => simp [jsonValues, jsonValue, ih]

/-- The text written for a collection parses to the collection with every
trade as `jsonProps` has it. -/
theorem jsonValue_collection (trades : List Obj) :
    jsonValue (JsVal.arr (trades.map JsVal.obj))
      = JsVal.arr ((trades.map jsonProps).map JsVal.obj) := by
  simp [jsonValue, jsonValues_map_obj]

theorem map_obj_injective (xs ys : List Obj) (h : xs.map JsVal.obj = ys.map JsVal.obj) :
    xs = ys := by
  induction xs generalizing ys with
  | nil =>
    cases ys with
    | nil => rfl
    | cons y ys => simp at h
  | cons x xs ih =>
    cases ys with
    | nil => simp at h
    | cons y ys =>
      simp only [List.map_cons, List.cons.injEq, JsVal.obj.injEq] at h
      rw [h.1, ih ys h.2]

/-- A storage holds at most one collection. -/
theorem Holds.unique {d : Disk} {xs ys : List Obj} (h1 : Holds d xs) (h2 : Holds d ys) :
    xs = ys := by
  unfold Holds at h1 h2
  rw [h1] at h2
  injection h2 with h3
  exact map_obj_injective xs ys h3

/-- A storage that cannot be read holds the empty collection. -/
theorem Holds.of_unreadable {d : Disk} {trades : List Obj} (h : Holds d trades)
    (hr : d.readable = false) : trades = [] := by
  have he : Holds d [] := by simp [Holds, readTrades, readFileSync, hr]
  exact h.unique he

theorem persist_of_not_written (o : Outcome) (d : Disk) (h : o.written = none) :
    o.persist d = d := by
  simp [Outcome.persist, h]

/-- A failed write is swallowed: the storage stays as it was. -/
theorem persist_of_not_writable (o : Outcome) (d : Disk) (h : d.writable = false) :
    o.persist d = d := by
  unfold Outcome.persist
  cases o.written with
  | none => rfl
  | some c => simp [writeTrades, writeFileSync, h]

/-- After a successful write the storage holds the written collection as
JSON serialises it. -/
theorem holds_persist_of_written (o : Outcome) (d : Disk) (c : List Obj)
    (h : o.written = some c) (hw : d.writable = true) (hr : d.readable = true) :
    Holds (o.persist d) (c.map jsonProps) := by
  unfold Holds Outcome.persist
  rw [h]
  simp only
  rw [readTrades_writeTrades _ _ (by rw [jsonValue_collection]; rfl), jsonValue_collection]
  simp [hw, hr]

/-- After a write to a storage that cannot be read the storage still holds
the empty collection. -/
theorem holds_persist_of_unreadable (o : Outcome) (d : Disk) (hr : d.readable = false) :
    Holds (o.persist d) [] := by
  unfold Holds Outcome.persist
  cases o.written with
  | none => simp [readTrades, readFileSync, hr]
  | some c =>
    by_cases hw : d.writable = true
    · simp [writeTrades, writeFileSync, hw, readTrades, readFileSync, hr]
    · simp [writeTrades, writeFileSync, hw, readTrades, readFileSync, hr]

theorem getProp_jsonProps (t : Obj) (k : String) :
    getProp (jsonProps t) k = (getProp t k).map jsonValue := by
  induction t with
  | nil => rfl
  | cons p rest ih =>
    obtain ⟨k', v⟩ := p
    by_cases h : (k' == k) = true
    · simp [jsonProps, getProp, h]
    · simp [jsonProps, getProp, h, ih]

theorem jsonValue_eq_num (v : JsVal) (x : JsNum) (h : jsonValue v = JsVal.num x) :
    v = JsVal.num x ∧ ∃ n, x = JsNum.fin n := by
  cases v with
  | num y =>
    cases y with
    | fin n =>
      simp only [jsonValue] at h
      exact ⟨h, n, by injection h with h1; exact h1.symm⟩
    | nan => simp [jsonValue] at h
    | posInf => simp [jsonValue] at h
    | negInf => simp [jsonValue] at h
  | null => simp [jsonValue] at h
  | bool b => simp [jsonValue] at h
  | str s => simp [jsonValue] at h
  | arr xs => simp [jsonValue] at h
  | obj ps => simp [jsonValue] at h

/-- A trade that has the id after serialisation had it before. -/
theorem idIs_of_idIs_jsonProps (id : JsNum) (t : Obj) (h : idIs id (jsonProps t) = true) :
    idIs id t = true := by
  unfold idIs at h ⊢
  rw [getProp_jsonProps] at h
  cases hg : getProp t "id" with
  | none => rw [hg] at h; simp [strictEqNum] at h
  | some v =>
    rw [hg] at h
    simp only [Option.map_some'] at h
    cases hj : jsonValue v with
    | num x =>
      obtain ⟨hv, _⟩ := jsonValue_eq_num v x hj
      rw [hj] at h
      rw [hv]
      exact h
    | null => rw [hj] at h; simp [strictEqNum] at h
    | bool b => rw [hj] at h; simp [strictEqNum] at h
    | str s => rw [hj] at h; simp [strictEqNum] at h
    | arr xs => rw [hj] at h; simp [strictEqNum] at h
    | obj ps => rw [hj] at h; simp [strictEqNum] at h

/-- A trade with an integer id keeps it through serialisation. -/
theorem idIs_jsonProps_int (n : Int) (t : Obj) (h : idIs (JsNum.fin n) t = true) :
    idIs (JsNum.fin n) (jsonProps t) = true := by
  rw [idIs_int_iff] at h ⊢
  rw [getProp_jsonProps, h]
  rfl

theorem HasIds.jsonProps {trades : List Obj} {ids : List Int} (h : HasIds trades ids) :
    HasIds (trades.map jsonProps) ids := by
  induction trades generalizing ids with
  | nil =>
    have := (hasIds_nil_iff ids).1 h
    subst this
    simp [HasIds]
  | cons t ts ih =>
    obtain ⟨i, is, rfl, hi, hts⟩ := (hasIds_cons_iff t ts ids).1 h
    rw [List.map_cons]
    refine (hasIds_cons_iff _ _ _).2 ⟨i, is, rfl, ?_, ih hts⟩
    rw [getProp_jsonProps, hi]
    rfl

theorem allFiniteValues_map_obj (trades : List Obj)
    (h : allFiniteValues (trades.map JsVal.obj) = true) : ∀ t ∈ trades, allFiniteProps t = true := by
  induction trades with
  | nil => simp
  | cons t ts ih =>
    simp only [List.map_cons, allFiniteValues, allFinite, Bool.and_eq_true] at h
    intro u hu
    rcases List.mem_cons.1 hu with hu | hu
    · subst hu; exact h.1
    · exact ih h.2 u hu

/-- A collection of finite numbers is serialised to itself. -/
theorem map_jsonProps_of_allFinite (trades : List Obj)
    (h : allFinite (JsVal.arr (trades.map JsVal.obj)) = true) :
    trades.map jsonProps = trades := by
  simp only [allFinite] at h
  have hall := allFiniteValues_map_obj trades h
  have : ∀ t ∈ trades, jsonProps t = t := fun t ht => jsonProps_of_allFinite t (hall t ht)
  calc trades.map jsonProps = trades.map id := List.map_congr_left this
    _ = trades := List.map_id trades

/-! ## The claims settled on the storage -/

/-- C13 as stated fails: a file whose JSON text holds an id beyond the range
of numbers (`[{"id": 1e999}]`) is read as a trade with id `Infinity`; writing
that back stores `null` for the id, and the next read returns a trade whose
id is `null`. -/
theorem round_trip_counterexample :
    readTrades (diskWith (JsVal.arr [JsVal.obj [("id", JsVal.num JsNum.posInf)]]))
        = JsVal.arr [JsVal.obj [("id", JsVal.num JsNum.posInf)]] ∧
      readTrades (writeTrades
          (readTrades (diskWith (JsVal.arr [JsVal.obj [("id", JsVal.num JsNum.posInf)]])))
          (diskWith (JsVal.arr [JsVal.obj [("id", JsVal.num JsNum.posInf)]])))
        = JsVal.arr [JsVal.obj [("id", JsVal.null)]] ∧
      readTrades (writeTrades
          (readTrades (diskWith (JsVal.arr [JsVal.obj [("id", JsVal.num JsNum.posInf)]])))
          (diskWith (JsVal.arr [JsVal.obj [("id", JsVal.num JsNum.posInf)]])))
        ≠ readTrades (diskWith (JsVal.arr [JsVal.obj [("id", JsVal.num JsNum.posInf)]])) := by
  refine ⟨rfl, rfl, ?_⟩
  intro h
  have h2 : JsVal.arr [JsVal.obj [("id", JsVal.null)]]
      = JsVal.arr [JsVal.obj [("id", JsVal.num JsNum.posInf)]] := h
  simp at h2

/-- C13, amended: for every state of the storage (file missing, unreadable,
malformed, any JSON text; writable or not) in which every number that
`readTrades()` returns is finite, `writeTrades(readTrades())` leaves the
storage such that `readTrades()` returns the same value as before. -/
theorem round_trip_of_finite (d : Disk) (h : allFinite (readTrades d) = true) :
    readTrades (writeTrades (readTrades d) d) = readTrades d := by
  have hj : jsonValue (readTrades d) = readTrades d := jsonValue_of_allFinite _ h
  rw [readTrades_writeTrades _ _ (by rw [hj]; exact readTrades_truthy d), hj]
  by_cases hw : d.writable = true
  · by_cases hr : d.readable = true
    · simp [hw, hr]
    · simp [hw, hr, readTrades, readFileSync]
  · simp [hw]

theorem round_trip_of_finite_witness :
    allFinite (readTrades (diskWith (JsVal.arr [JsVal.obj (sampleTrade 1)]))) = true ∧
      readTrades (writeTrades (readTrades (diskWith (JsVal.arr [JsVal.obj (sampleTrade 1)])))
          (diskWith (JsVal.arr [JsVal.obj (sampleTrade 1)])))
        = readTrades (diskWith (JsVal.arr [JsVal.obj (sampleTrade 1)])) :=
  ⟨rfl, round_trip_of_finite (diskWith (JsVal.arr [JsVal.obj (sampleTrade 1)])) rfl⟩

/-- C14: evaluation of `readTrades` on a file whose JSON text is the object
`{"a": 1}`: it returns that object, which is not a sequence of trades. -/
theorem readTrades_returns_object :
    readTrades (diskWith (JsVal.obj [("a", JsVal.int 1)])) = JsVal.obj [("a", JsVal.int 1)] ∧
      (¬ ∃ xs : List JsVal,
        readTrades (diskWith (JsVal.obj [("a", JsVal.int 1)])) = JsVal.arr xs) ∧
      listStored (diskWith (JsVal.obj [("a", JsVal.int 1)]))
        = Reply.json 200 (JsVal.obj [("trades", JsVal.obj [("a", JsVal.int 1)])]) := by
  refine ⟨rfl, ?_, rfl⟩
  rintro ⟨xs, h⟩
  have h2 : JsVal.obj [("a", JsVal.int 1)] = JsVal.arr xs := h
  cases h2

/-- `readTrades` never throws. For every state of the storage it returns a
value: the empty sequence when the file is missing, unreadable or holds a
text that is not JSON, and the stored sequence when the file is readable and
holds a JSON array of trades. List always responds 200 with that value as
`trades`, and on empty storage its body is `{ trades: [] }`. -/
theorem readTrades_total (d : Disk) :
    (d.file = none ∨ d.readable = false ∨ d.file = some FileText.malformed →
        readTrades d = JsVal.arr []) ∧
      (∀ trades : List Obj,
        d.readable = true → d.file = some (FileText.json (JsVal.arr (trades.map JsVal.obj))) →
          readTrades d = JsVal.arr (trades.map JsVal.obj) ∧
          listStored d = (listTrades trades).reply) ∧
      listStored d = Reply.json 200 (JsVal.obj [("trades", readTrades d)]) ∧
      (d.file = none ∨ d.file = some (FileText.json (JsVal.arr [])) →
        listStored d = Reply.json 200 (JsVal.obj [("trades", JsVal.arr [])])) := by
  refine ⟨?_, ?_, rfl, ?_⟩
  · rintro (h | h | h)
    · simp [readTrades, readFileSync, h]
    · simp [readTrades, readFileSync, h]
    · by_cases hr : d.readable = true
      · simp [readTrades, readFileSync, h, hr, jsonParse]
      · simp [readTrades, readFileSync, hr]
  · intro trades hr hf
    have : readTrades d = JsVal.arr (trades.map JsVal.obj) := by
      simp [readTrades, readFileSync, hr, hf, jsonParse, truthy]
    exact ⟨this, by simp [listStored, listTrades, this]⟩
  · rintro (h | h)
    · simp [listStored, readTrades, readFileSync, h]
    · by_cases hr : d.readable = true
      · simp [listStored, readTrades, readFileSync, h, hr, jsonParse, truthy]
      · simp [listStored, readTrades, readFileSync, hr]

theorem readTrades_total_examples :
    readTrades { file := some FileText.malformed, readable := true, writable := true }
        = JsVal.arr [] ∧
      (readTrades (diskWith (JsVal.arr ([sampleTrade 1].map JsVal.obj)))
          = JsVal.arr ([sampleTrade 1].map JsVal.obj) ∧
        listStored (diskWith (JsVal.arr ([sampleTrade 1].map JsVal.obj)))
          = (listTrades [sampleTrade 1]).reply) ∧
      listStored { file := none, readable := true, writable := true }
        = Reply.json 200 (JsVal.obj [("trades", JsVal.arr [])]) :=
  ⟨(readTrades_total { file := some FileText.malformed, readable := true, writable := true }).1
      (Or.inr (Or.inr rfl)),
    (readTrades_total (diskWith (JsVal.arr ([sampleTrade 1].map JsVal.obj)))).2.1
      [sampleTrade 1] rfl rfl,
    (readTrades_total { file := none, readable := true, writable := true }).2.2.2 (Or.inl rfl)⟩

/-! ## Further properties of Create -/

theorem hasOwn_eq_isSome (o : Obj) (k : String) : hasOwn o k = (getProp o k).isSome := by
  induction o with
  | nil => rfl
  | cons p rest ih =>
    obtain ⟨k', v⟩ := p
    by_cases h : (k' == k) = true
    · simp [hasOwn, getProp, h]
    · have ih' : rest.any (fun p => p.1 == k) = (getProp rest k).isSome := ih
      simp [hasOwn, getProp, h, ih']

theorem validateTrade_congr (body₁ body₂ : Obj)
    (hdiff : ∀ k, k ≠ "id" → getProp body₁ k = getProp body₂ k) :
    validateTrade body₁ = validateTrade body₂ := by
  have hown : ∀ k, k ≠ "id" → hasOwn body₁ k = hasOwn body₂ k := by
    intro k hk
    rw [hasOwn_eq_isSome, hasOwn_eq_isSome, hdiff k hk]
  simp only [validateTrade, requiredFields, List.all_cons, List.all_nil]
  rw [hown "hasOwnProperty" (by decide), hown "type" (by decide), hown "user_id" (by decide),
    hown "symbol" (by decide), hown "shares" (by decide), hown "price" (by decide)]

/-- Create run with parsed bodies: when two bodies agree on every property
other than `id` and the first passes validation, so does the second, both
are answered alike, and when `getNextId` returns an id both are answered 201
with that id, whatever `id` the bodies brought. -/
theorem postTrade_id_independent_of_body_id (E : Engine) (trades : List Obj) (body₁ body₂ : Obj)
    (hv : Valid E body₁) (hdiff : ∀ k, k ≠ "id" → getProp body₁ k = getProp body₂ k) :
    Valid E body₂ ∧
      (postTrade E body₁ trades).reply.tradeId = (postTrade E body₂ trades).reply.tradeId ∧
      ∀ next, getNextId E trades = some next →
        (postTrade E body₁ trades).reply.tradeId = some (JsVal.num next) ∧
        (postTrade E body₂ trades).reply.tradeId = some (JsVal.num next) ∧
        (∃ t₁, (postTrade E body₁ trades).reply = Reply.json 201 (JsVal.obj t₁) ∧
          (postTrade E body₁ trades).written = some (trades ++ [t₁]) ∧
          getProp t₁ "id" = some (JsVal.num next)) ∧
        (∃ t₂, (postTrade E body₂ trades).reply = Reply.json 201 (JsVal.obj t₂) ∧
          (postTrade E body₂ trades).written = some (trades ++ [t₂]) ∧
          getProp t₂ "id" = some (JsVal.num next)) := by
  have hv2 : Valid E body₂ := by
    refine ⟨?_, ?_⟩
    · rw [← validateTrade_congr body₁ body₂ hdiff]; exact hv.1
    · rw [← hdiff "shares" (by decide)]; exact hv.2
  refine ⟨hv2, ?_, ?_⟩
  · cases hn : getNextId E trades with
    | none => simp [postTrade, hv.1, hv.2, hv2.1, hv2.2, hn, Reply.tradeId]
    | some next =>
      rw [postTrade_of_valid E body₁ trades next hv hn,
        postTrade_of_valid E body₂ trades next hv2 hn]
      simp [Reply.tradeId, getProp_setProp_self]
  · intro next hn
    rw [postTrade_of_valid E body₁ trades next hv hn,
      postTrade_of_valid E body₂ trades next hv2 hn]
    exact ⟨getProp_setProp_self _ _ _, getProp_setProp_self _ _ _,
      ⟨_, rfl, rfl, getProp_setProp_self _ _ _⟩, ⟨_, rfl, rfl, getProp_setProp_self _ _ _⟩⟩

theorem inv_nil : Inv [] := ⟨[], rfl, List.nodup_nil, by simp⟩

theorem inv_filter (trades : List Obj) (p : Obj → Bool) (h : Inv trades) :
    Inv (trades.filter p) := by
  obtain ⟨ids, hids, hnd, hpos⟩ := h
  obtain ⟨ids', hsub, hids'⟩ := hids.filter p
  exact ⟨ids', hids', hnd.sublist hsub, fun i hi => hpos i (hsub.subset hi)⟩

/-- One request on a collection of pairwise distinct positive safe integer
ids leaves a collection of pairwise distinct positive integer ids in the
memory of the handler. -/
theorem inv_handle_of_safe (E : Engine) (req : Request) (trades : List Obj) (ids : List Int)
    (hids : HasIds trades ids) (hnd : ids.Nodup) (hpos : ∀ i ∈ ids, 0 < i)
    (hsafe : SafeIds ids) : Inv ((handle E req trades).store trades) := by
  have hinv : Inv trades := ⟨ids, hids, hnd, hpos⟩
  cases req with
  | list => exact hinv
  | get id =>
    have : (getTrade id trades).store trades = trades := by
      simp [Outcome.store, (getTrade_reads_written id trades).2]
    simp only [handle, this]
    exact hinv
  | delete id => exact inv_filter trades _ hinv
  | updatePrice id body =>
    simp only [handle]
    rcases patchTrade_cases id body trades with
      ⟨_, h1⟩ | ⟨_, h1⟩ | ⟨_, _, h1⟩ | ⟨fields, p, t, i, _, _, _, _, hi, h1⟩
    · rw [h1]; exact hinv
    · rw [h1]; exact hinv
    · rw [h1]; exact hinv
    · rw [h1]
      exact ⟨ids, hids.set_price i t _ hi, hnd, hpos⟩
  | create body =>
    simp only [handle]
    rcases postTrade_cases E body trades with ⟨_, h1⟩ | h1 | ⟨fields, x, _, _, hn, h1⟩
    · simp only [Outcome.store, h1]; exact hinv
    · rw [h1]; exact hinv
    · obtain ⟨n, hx, hn1, hn2⟩ := getNextId_eq_of_hasIds E trades ids x hids hsafe hn
      subst hx
      rw [h1]
      refine ⟨ids ++ [n], hids.append _ n (getProp_setProp_self _ _ _), ?_, ?_⟩
      · by_cases he : ids = []
        · subst he; simp
        · obtain ⟨m, _, hle, hnm⟩ := hn2 he
          rw [List.nodup_append]
          refine ⟨hnd, List.nodup_singleton n, ?_⟩
          intro a ha hb
          have hb' : a = n := by simpa using hb
          have := hle a ha
          omega
      · intro i hi
        rcases List.mem_append.1 hi with hi | hi
        · exact hpos i hi
        · have hi' : i = n := by simpa using hi
          by_cases he : ids = []
          · have := hn1 he; omega
          · obtain ⟨m, hm, _, hnm⟩ := hn2 he
            have := hpos m hm
            omega

/-! ## The claims settled by evaluation -/

/-- C1: evaluation of `getNextId` on the collection whose only trade has id
2^53 = 9007199254740992: it returns 2^53, not 1 + 2^53, which is the id of the
trade already stored; a Create run with a parsed valid body on that
collection is answered 201 with that id; and with `req.body` as this
application delivers it Create throws instead of answering 201. -/
theorem getNextId_at_two_pow_53 :
    HasIds [sampleTrade 9007199254740992] [9007199254740992] ∧
      getNextId nanEngine [sampleTrade 9007199254740992]
        = some (JsNum.fin 9007199254740992) ∧
      idIs (JsNum.fin 9007199254740992) (sampleTrade 9007199254740992) = true ∧
      (postTrade nanEngine (sampleBody 15) [sampleTrade 9007199254740992]).reply
        = Reply.json 201
            (JsVal.obj (setProp (sampleBody 15) "id" (JsVal.int 9007199254740992))) ∧
      postTrade nanEngine (reqBody (sampleBody 15)) []
        = { reply := Reply.threw, reads := 0, written := none } :=
  ⟨rfl, rfl, rfl, rfl, rfl⟩

/-- C2: evaluation of Create on the collection whose only trade has id 2^53:
the collection has pairwise distinct positive ids, the handler run with a
parsed valid body writes a second trade with the same id 2^53, the written
collection no longer has pairwise distinct ids, and it is what the storage
holds afterwards. -/
theorem create_repeats_id_at_two_pow_53 :
    Inv [sampleTrade twoPow53] ∧
      (handle nanEngine (Request.create (sampleBody 15)) [sampleTrade twoPow53]).written
        = some [sampleTrade twoPow53, setProp (sampleBody 15) "id" (JsVal.int twoPow53)] ∧
      ¬ Inv ((handle nanEngine (Request.create (sampleBody 15)) [sampleTrade twoPow53]).store
          [sampleTrade twoPow53]) ∧
      Holds ((handle nanEngine (Request.create (sampleBody 15)) [sampleTrade twoPow53]).persist
          (diskWith (JsVal.arr [JsVal.obj (sampleTrade twoPow53)])))
        [sampleTrade twoPow53, setProp (sampleBody 15) "id" (JsVal.int twoPow53)] := by
  refine ⟨⟨[twoPow53], rfl, by simp, by decide⟩, rfl, ?_, rfl⟩
  rintro ⟨ids, hids, hnd, _⟩
  have hs : (handle nanEngine (Request.create (sampleBody 15)) [sampleTrade twoPow53]).store
      [sampleTrade twoPow53]
      = [sampleTrade twoPow53, setProp (sampleBody 15) "id" (JsVal.int twoPow53)] := rfl
  rw [hs] at hids
  obtain ⟨i, is, rfl, hi, hrest⟩ := (hasIds_cons_iff _ _ _).1 hids
  obtain ⟨j, js, rfl, hj, _⟩ := (hasIds_cons_iff _ _ _).1 hrest
  have hi' : some (JsVal.int twoPow53) = some (JsVal.int i) := hi
  have hj' : some (JsVal.int twoPow53) = some (JsVal.int j) := hj
  simp only [JsVal.int, Option.some.injEq, JsVal.num.injEq, JsNum.fin.injEq] at hi' hj'
  subst hi'
  subst hj'
  simp at hnd

/-- C7: evaluation of Update price with `req.body` as this application
delivers it: whatever the client sent, also the body `{price: "abc"}` of the
scenario, the access `req.body.price` throws; the handler answers neither
400 nor 404 nor 200 and reads and writes nothing. -/
theorem patch_throws_without_body (id : JsNum) (payload : Obj) (trades : List Obj) :
    patchTrade id (reqBody payload) trades
        = { reply := Reply.threw, reads := 0, written := none } ∧
      patchTrade (JsNum.fin 1) (reqBody [("price", JsVal.str "abc")]) [sampleTrade 1]
        = { reply := Reply.threw, reads := 0, written := none } ∧
      (∀ p, getProp [("price", JsVal.str "abc")] "price" ≠ some (JsVal.num p)) ∧
      (patchTrade (JsNum.fin 1) (reqBody [("price", JsVal.str "abc")]) [sampleTrade 1]).reply
        ≠ Reply.json 400 (message "Invalid price data") := by
  refine ⟨rfl, rfl, ?_, ?_⟩
  · intro p h
    simp [getProp] at h
  · intro h
    have h2 : Reply.threw = Reply.json 400 (message "Invalid price data") := h
    cases h2

/-- Update price run with a parsed body: 400 'Invalid price data' exactly
when the price of the body is not a number, whatever the id; with a numeric
price 404 'Trade not found' exactly when no trade of the collection has the
id, and otherwise 200 with the first trade that has the id, carrying the new
price. -/
theorem patchTrade_reply_of_parsed_body (id : JsNum) (body : Obj) (trades : List Obj) :
    ((patchTrade id body trades).reply = Reply.json 400 (message "Invalid price data") ↔
        ¬ ∃ p, getProp body "price" = some (JsVal.num p)) ∧
      (∀ p, getProp body "price" = some (JsVal.num p) →
        ((patchTrade id body trades).reply = Reply.json 404 (message "Trade not found") ↔
          ∀ t ∈ trades, idIs id t = false) ∧
        ((∃ t ∈ trades, idIs id t = true) →
          ∃ t ∈ trades, idIs id t = true ∧ trades.find? (idIs id) = some t ∧
            getProp (setProp t "price" (JsVal.num p)) "price" = some (JsVal.num p) ∧
            getProp (setProp t "price" (JsVal.num p)) "id" = getProp t "id" ∧
            (patchTrade id body trades).reply
              = Reply.json 200 (JsVal.obj (setProp t "price" (JsVal.num p))))) := by
  have key : ∀ p, getProp body "price" = some (JsVal.num p) →
      ((patchTrade id body trades).reply = notFound ∧ ∀ t ∈ trades, idIs id t = false) ∨
      ∃ t ∈ trades, idIs id t = true ∧ trades.find? (idIs id) = some t ∧
        (patchTrade id body trades).reply
          = Reply.json 200 (JsVal.obj (setProp t "price" (JsVal.num p))) := by
    intro p hp
    cases hf : trades.find? (idIs id) with
    | none =>
      left
      rw [patchTrade_of_absent id body trades p hp hf]
      exact ⟨rfl, (find?_none_iff_no_match id trades).1 hf⟩
    | some t =>
      right
      obtain ⟨i, _, _, hpt⟩ := patchTrade_of_found id body trades p t hp hf
      exact ⟨t, List.mem_of_find?_eq_some hf, List.find?_some hf, rfl, by rw [hpt]⟩
  refine ⟨?_, ?_⟩
  · constructor
    · rintro h ⟨p, hp⟩
      rcases key p hp with ⟨h1, _⟩ | ⟨t, _, _, _, h1⟩
      · rw [h1] at h
        simp [notFound] at h
      · rw [h1] at h
        simp at h
    · intro h
      rw [patchTrade_of_not_number id body trades (fun p hq => h ⟨p, hq⟩)]
      rfl
  · intro p hp
    constructor
    · constructor
      · intro h
        rcases key p hp with ⟨_, h2⟩ | ⟨t, _, _, _, h1⟩
        · exact h2
        · rw [h1] at h
          simp at h
      · intro h
        rcases key p hp with ⟨h1, _⟩ | ⟨t, ht, hid, _, _⟩
        · exact h1
        · rw [h t ht] at hid
          cases hid
    · rintro ⟨u, hu, hid⟩
      rcases key p hp with ⟨_, h2⟩ | ⟨t, ht, htid, hfind, h1⟩
      · rw [h2 u hu] at hid
        cases hid
      · exact ⟨t, ht, htid, hfind, getProp_setProp_self _ _ _,
          getProp_setProp_of_ne t "price" "id" _ (by decide), h1⟩

/-- C11: evaluation of Create with `req.body` as this application delivers
it, for a payload without an id and for the same payload carrying `id: 77`:
both requests throw in `validateTrade`; no id is assigned, no trade is
returned and none is stored. -/
theorem create_assigns_no_id_without_body (E : Engine) (trades : List Obj) :
    Valid E (sampleBody 15) ∧ Valid E (("id", JsVal.int 77) :: sampleBody 15) ∧
      postTrade E (reqBody (sampleBody 15)) trades
        = { reply := Reply.threw, reads := 0, written := none } ∧
      postTrade E (reqBody (("id", JsVal.int 77) :: sampleBody 15)) trades
        = { reply := Reply.threw, reads := 0, written := none } ∧
      (postTrade E (reqBody (sampleBody 15)) trades).reply.tradeId = none ∧
      (postTrade E (reqBody (("id", JsVal.int 77) :: sampleBody 15)) trades).reply.tradeId
        = none :=
  ⟨⟨rfl, rfl⟩, ⟨rfl, rfl⟩, rfl, rfl, rfl, rfl⟩

/-! ## The claims settled on what the storage holds afterwards -/

theorem find?_idIs_none_of_lt (trades : List Obj) (ids : List Int) (next : Int)
    (hids : HasIds trades ids) (hlt : ∀ i ∈ ids, i < next) :
    trades.find? (idIs (JsNum.fin next)) = none := by
  rw [List.find?_eq_none]
  intro t ht hid
  obtain ⟨i, hi, hti⟩ := hids.mem t ht
  rw [idIs_int_iff, hti] at hid
  have : i = next := by simpa [JsVal.int] using hid
  have := hlt i hi
  omega

/-- What a 201 reply of Create tells about the request. -/
theorem postTrade_of_created (E : Engine) (body : Option Obj) (trades : List Obj) (t : Obj)
    (h : (postTrade E body trades).reply = Reply.json 201 (JsVal.obj t)) :
    ∃ fields next, body = some fields ∧ Valid E fields ∧ getNextId E trades = some next ∧
      t = setProp fields "id" (JsVal.num next) ∧
      (postTrade E body trades).written = some (trades ++ [t]) := by
  rcases postTrade_cases E body trades with ⟨h1, _⟩ | h1 | ⟨fields, next, hb, hv, hn, h1⟩
  · rw [h1] at h; cases h
  · rw [h1] at h; simp [invalidTrade] at h
  · rw [h1] at h
    have ht : setProp fields "id" (JsVal.num next) = t := by
      injection h with _ h2
      injection h2
    subst ht
    exact ⟨fields, next, hb, hv, hn, rfl, by rw [h1]⟩

/-- C4 as stated fails: on a storage that cannot be written, Create (run
with a parsed valid body) answers 201 with a trade of id 1, the failed write
is swallowed, the storage still holds the empty collection, and Get of 1
answers 404. -/
theorem create_then_get_counterexample :
    Holds (readOnlyDisk (JsVal.arr [])) [] ∧ Valid nanEngine (sampleBody 15) ∧
      (postTrade nanEngine (sampleBody 15) []).reply
        = Reply.json 201 (JsVal.obj (setProp (sampleBody 15) "id" (JsVal.int 1))) ∧
      Holds ((postTrade nanEngine (sampleBody 15) []).persist (readOnlyDisk (JsVal.arr []))) [] ∧
      (getTrade (JsNum.fin 1) []).reply = Reply.json 404 (message "Trade not found") :=
  ⟨rfl, ⟨rfl, rfl⟩, rfl, rfl, rfl⟩

/-- C4, amended: on a storage that can be read and written and holds a
collection of safe integer ids, when Create answers 201 with the trade `t`,
`t` carries an integer id `next`, the storage afterwards holds the collection
followed by `t`, each trade as JSON serialises it, and Get of `next` on it
answers 200 with `t` as JSON serialises it: with the id `next`, and equal to
`t` field for field when every number in `t` is finite. -/
theorem create_then_get_persisted (E : Engine) (body : Option Obj) (trades : List Obj)
    (ids : List Int) (d : Disk) (t : Obj) (_hd : Holds d trades) (hw : d.writable = true)
    (hr : d.readable = true) (hids : HasIds trades ids) (hsafe : SafeIds ids)
    (h : (postTrade E body trades).reply = Reply.json 201 (JsVal.obj t)) :
    ∃ next : Int, getProp t "id" = some (JsVal.int next) ∧
      Holds ((postTrade E body trades).persist d) ((trades ++ [t]).map jsonProps) ∧
      (getTrade (JsNum.fin next) ((trades ++ [t]).map jsonProps)).reply
        = Reply.json 200 (JsVal.obj (jsonProps t)) ∧
      getProp (jsonProps t) "id" = some (JsVal.int next) ∧
      (allFiniteProps t = true → jsonProps t = t) := by
  obtain ⟨fields, x, _, _, hn, ht, hwr⟩ := postTrade_of_created E body trades t h
  obtain ⟨next, hx, _, h2⟩ := getNextId_eq_of_hasIds E trades ids x hids hsafe hn
  subst hx
  have hid : getProp t "id" = some (JsVal.int next) := by
    rw [ht]; exact getProp_setProp_self _ _ _
  have hidj : getProp (jsonProps t) "id" = some (JsVal.int next) := by
    rw [getProp_jsonProps, hid]; rfl
  refine ⟨next, hid, holds_persist_of_written _ d _ hwr hw hr, ?_, hidj,
    jsonProps_of_allFinite t⟩
  have hlt : ∀ i ∈ ids, i < next := by
    intro i hi
    have hne : ids ≠ [] := List.ne_nil_of_mem hi
    obtain ⟨m, _, hle, hnm⟩ := h2 hne
    have := hle i hi
    omega
  have hnone := find?_idIs_none_of_lt (trades.map jsonProps) ids next hids.jsonProps hlt
  have hself : idIs (JsNum.fin next) (jsonProps t) = true := (idIs_int_iff _ _).2 hidj
  simp [getTrade, List.find?_append, hnone, hself]

theorem create_then_get_persisted_witness :
    ∃ next : Int,
      getProp (setProp (sampleBody 15) "id" (JsVal.int 4)) "id" = some (JsVal.int next) ∧
      Holds ((postTrade nanEngine (sampleBody 15) [sampleTrade 1, sampleTrade 3]).persist
          (diskWith (JsVal.arr [JsVal.obj (sampleTrade 1), JsVal.obj (sampleTrade 3)])))
        (([sampleTrade 1, sampleTrade 3] ++ [setProp (sampleBody 15) "id" (JsVal.int 4)]).map
          jsonProps) ∧
      (getTrade (JsNum.fin next)
          (([sampleTrade 1, sampleTrade 3]
            ++ [setProp (sampleBody 15) "id" (JsVal.int 4)]).map jsonProps)).reply
        = Reply.json 200 (JsVal.obj (jsonProps (setProp (sampleBody 15) "id" (JsVal.int 4)))) ∧
      getProp (jsonProps (setProp (sampleBody 15) "id" (JsVal.int 4))) "id"
        = some (JsVal.int next) ∧
      (allFiniteProps (setProp (sampleBody 15) "id" (JsVal.int 4)) = true →
        jsonProps (setProp (sampleBody 15) "id" (JsVal.int 4))
          = setProp (sampleBody 15) "id" (JsVal.int 4)) :=
  create_then_get_persisted nanEngine (sampleBody 15) [sampleTrade 1, sampleTrade 3] [1, 3]
    (diskWith (JsVal.arr [JsVal.obj (sampleTrade 1), JsVal.obj (sampleTrade 3)]))
    (setProp (sampleBody 15) "id" (JsVal.int 4)) rfl rfl rfl rfl (by unfold SafeIds; decide) rfl

/-- C5 as stated fails: on a storage that cannot be written and holds a trade
with id 1, Delete of 1 answers 204, the failed write is swallowed, the
storage still holds the trade, and Get of 1 answers 200 with it. -/
theorem delete_then_get_counterexample :
    Holds (readOnlyDisk (JsVal.arr [JsVal.obj (sampleTrade 1)])) [sampleTrade 1] ∧
      (deleteTrade (JsNum.fin 1) [sampleTrade 1]).reply = Reply.bare 204 ∧
      Holds ((deleteTrade (JsNum.fin 1) [sampleTrade 1]).persist
          (readOnlyDisk (JsVal.arr [JsVal.obj (sampleTrade 1)]))) [sampleTrade 1] ∧
      (getTrade (JsNum.fin 1) [sampleTrade 1]).reply
        = Reply.json 200 (JsVal.obj (sampleTrade 1)) :=
  ⟨rfl, rfl, rfl, rfl⟩

/-- C5, amended: for every collection and every id (present once, several
times or not at all, or `NaN`), on a storage that can be written, the storage
after Delete of the id holds a collection on which Get of the id answers 404
'Trade not found'. -/
theorem delete_then_get_persisted (id : JsNum) (trades : List Obj) (d : Disk)
    (_hd : Holds d trades) (hw : d.writable = true) :
    ∃ rest, Holds ((deleteTrade id trades).persist d) rest ∧
      (getTrade id rest).reply = Reply.json 404 (message "Trade not found") := by
  by_cases hr : d.readable = true
  · refine ⟨(trades.filter (fun trade => !idIs id trade)).map jsonProps,
      holds_persist_of_written _ d _ rfl hw hr, ?_⟩
    have hnone : ((trades.filter (fun trade => !idIs id trade)).map jsonProps).find? (idIs id)
        = none := by
      rw [List.find?_eq_none]
      intro u hu hid
      obtain ⟨w, hwm, rfl⟩ := List.mem_map.1 hu
      have h1 := idIs_of_idIs_jsonProps id w hid
      have h2 := (List.mem_filter.1 hwm).2
      simp [h1] at h2
    simp only [getTrade, hnone]
    rfl
  · exact ⟨[], holds_persist_of_unreadable _ d (by simpa using hr), rfl⟩

theorem delete_then_get_persisted_witness :
    ∃ rest, Holds ((deleteTrade (JsNum.fin 1) [sampleTrade 1, sampleTrade 3]).persist
        (diskWith (JsVal.arr [JsVal.obj (sampleTrade 1), JsVal.obj (sampleTrade 3)]))) rest ∧
      (getTrade (JsNum.fin 1) rest).reply = Reply.json 404 (message "Trade not found") :=
  delete_then_get_persisted (JsNum.fin 1) [sampleTrade 1, sampleTrade 3]
    (diskWith (JsVal.arr [JsVal.obj (sampleTrade 1), JsVal.obj (sampleTrade 3)])) rfl rfl

/-- C12 as stated fails: on a file whose JSON text is `[{"id": 1e999}]` no
trade has id 5, yet after Delete of 5 the storage holds a trade with id
`null` where it held one with id `Infinity`: the collection is not unchanged. -/
theorem delete_frame_counterexample :
    Holds (diskWith (JsVal.arr [JsVal.obj [("id", JsVal.num JsNum.posInf)]]))
        [[("id", JsVal.num JsNum.posInf)]] ∧
      (∀ t ∈ [[("id", JsVal.num JsNum.posInf)]], idIs (JsNum.fin 5) t = false) ∧
      Holds ((deleteTrade (JsNum.fin 5) [[("id", JsVal.num JsNum.posInf)]]).persist
          (diskWith (JsVal.arr [JsVal.obj [("id", JsVal.num JsNum.posInf)]])))
        [[("id", JsVal.null)]] ∧
      ¬ Holds ((deleteTrade (JsNum.fin 5) [[("id", JsVal.num JsNum.posInf)]]).persist
          (diskWith (JsVal.arr [JsVal.obj [("id", JsVal.num JsNum.posInf)]])))
        [[("id", JsVal.num JsNum.posInf)]] := by
  refine ⟨rfl, by decide, rfl, ?_⟩
  intro h
  have h1 : Holds ((deleteTrade (JsNum.fin 5) [[("id", JsVal.num JsNum.posInf)]]).persist
      (diskWith (JsVal.arr [JsVal.obj [("id", JsVal.num JsNum.posInf)]])))
      [[("id", JsVal.null)]] := rfl
  have h2 := h1.unique h
  simp at h2

/-- C12, amended: for every collection and id, when the write succeeds the
storage after Delete holds the sub-sequence of the original collection made
of the trades whose id is not the requested one, in their original order,
each as JSON serialises it; a collection of finite numbers is serialised
unchanged, so that then the trades keep their fields and, when no trade has
the id, the collection is unchanged. When the write fails the storage is
unchanged. -/
theorem delete_frame_persisted (id : JsNum) (trades : List Obj) (d : Disk)
    (hd : Holds d trades) :
    (d.writable = true →
        Holds ((deleteTrade id trades).persist d)
          ((trades.filter (fun t => !idIs id t)).map jsonProps)) ∧
      (d.writable = false → (deleteTrade id trades).persist d = d) ∧
      (trades.filter (fun t => !idIs id t)).Sublist trades ∧
      (∀ t, t ∈ trades.filter (fun t => !idIs id t) ↔ t ∈ trades ∧ idIs id t = false) ∧
      (allFinite (JsVal.arr (trades.map JsVal.obj)) = true →
        (trades.filter (fun t => !idIs id t)).map jsonProps
          = trades.filter (fun t => !idIs id t)) ∧
      (d.writable = true → allFinite (JsVal.arr (trades.map JsVal.obj)) = true →
        (∀ t ∈ trades, idIs id t = false) → Holds ((deleteTrade id trades).persist d) trades) := by
  have hwrite : d.writable = true →
      Holds ((deleteTrade id trades).persist d)
        ((trades.filter (fun t => !idIs id t)).map jsonProps) := by
    intro hw
    by_cases hr : d.readable = true
    · exact holds_persist_of_written _ d _ rfl hw hr
    · have hr' : d.readable = false := by simpa using hr
      have hnil := hd.of_unreadable hr'
      subst hnil
      exact holds_persist_of_unreadable _ d hr'
  have hfin : allFinite (JsVal.arr (trades.map JsVal.obj)) = true →
      (trades.filter (fun t => !idIs id t)).map jsonProps
        = trades.filter (fun t => !idIs id t) := by
    intro hf
    have hall := allFiniteValues_map_obj trades (by simpa [allFinite] using hf)
    have : ∀ t ∈ trades.filter (fun t => !idIs id t), jsonProps t = t :=
      fun t ht => jsonProps_of_allFinite t (hall t (List.mem_filter.1 ht).1)
    calc (trades.filter (fun t => !idIs id t)).map jsonProps
        = (trades.filter (fun t => !idIs id t)).map (fun t => t) := List.map_congr_left this
      _ = trades.filter (fun t => !idIs id t) := List.map_id' _
  refine ⟨hwrite, fun hw => persist_of_not_writable _ d hw, List.filter_sublist trades, ?_,
    hfin, ?_⟩
  · intro t
    simp [List.mem_filter]
  · intro hw hf hno
    have hsame : trades.filter (fun t => !idIs id t) = trades := by
      rw [List.filter_eq_self]
      intro t ht
      simp [hno t ht]
    have := hwrite hw
    rw [hfin hf, hsame] at this
    exact this

theorem delete_frame_persisted_witness :
    (allFinite (JsVal.arr ([sampleTrade 1, sampleTrade 3].map JsVal.obj)) = true ∧
        ∀ t ∈ [sampleTrade 1, sampleTrade 3], idIs (JsNum.fin 2) t = false) ∧
      Holds ((deleteTrade (JsNum.fin 2) [sampleTrade 1, sampleTrade 3]).persist
          (diskWith (JsVal.arr [JsVal.obj (sampleTrade 1), JsVal.obj (sampleTrade 3)])))
        [sampleTrade 1, sampleTrade 3] ∧
      Holds ((deleteTrade (JsNum.fin 1) [sampleTrade 1, sampleTrade 3]).persist
          (diskWith (JsVal.arr [JsVal.obj (sampleTrade 1), JsVal.obj (sampleTrade 3)])))
        (([sampleTrade 1, sampleTrade 3].filter (fun t => !idIs (JsNum.fin 1) t)).map
          jsonProps) :=
  ⟨⟨rfl, by decide⟩,
    (delete_frame_persisted (JsNum.fin 2) [sampleTrade 1, sampleTrade 3]
      (diskWith (JsVal.arr [JsVal.obj (sampleTrade 1), JsVal.obj (sampleTrade 3)])) rfl).2.2.2.2.2
      rfl rfl (by decide),
    (delete_frame_persisted (JsNum.fin 1) [sampleTrade 1, sampleTrade 3]
      (diskWith (JsVal.arr [JsVal.obj (sampleTrade 1), JsVal.obj (sampleTrade 3)])) rfl).1 rfl⟩

theorem HasIds.filter_ne {trades : List Obj} {ids : List Int} (h : HasIds trades ids)
    (m : Int) :
    HasIds (trades.filter (fun trade => !idIs (JsNum.fin m) trade))
      (ids.filter (fun i => decide (i ≠ m))) := by
  induction trades generalizing ids with
  | nil =>
    have := (hasIds_nil_iff ids).1 h
    subst this
    simp [HasIds]
  | cons t ts ih =>
    obtain ⟨i, is, rfl, hi, hts⟩ := (hasIds_cons_iff t ts ids).1 h
    have hiff : idIs (JsNum.fin m) t = true ↔ i = m := by
      rw [idIs_int_iff, hi]
      simp [JsVal.int]
    by_cases him : i = m
    · have ht : idIs (JsNum.fin m) t = true := hiff.2 him
      rw [List.filter_cons_of_neg (by simp [ht]), List.filter_cons_of_neg (by simp [him])]
      exact ih hts
    · have ht : idIs (JsNum.fin m) t = false := by
        cases hc : idIs (JsNum.fin m) t with
        | false => rfl
        | true => exact absurd (hiff.1 hc) him
      rw [List.filter_cons_of_pos (by simp [ht]), List.filter_cons_of_pos (by simp [him])]
      exact (hasIds_cons_iff _ _ _).2 ⟨i, _, rfl, hi, ih hts⟩

/-- C10 as stated fails: the collection with ids 1 and 3 has pairwise
distinct positive ids and highest id 3; after Delete of 3 the next valid
Create is assigned id 2, not 3. -/
theorem create_after_delete_counterexample :
    HasIds [sampleTrade 1, sampleTrade 3] [1, 3] ∧ ([1, 3] : List Int).Nodup ∧
      (∀ i ∈ ([1, 3] : List Int), 0 < i) ∧ (∀ i ∈ ([1, 3] : List Int), i ≤ 3) ∧
      Valid nanEngine (sampleBody 15) ∧
      (deleteTrade (JsNum.fin 3) [sampleTrade 1, sampleTrade 3]).store
          [sampleTrade 1, sampleTrade 3] = [sampleTrade 1] ∧
      (postTrade nanEngine (sampleBody 15)
          ((deleteTrade (JsNum.fin 3) [sampleTrade 1, sampleTrade 3]).store
            [sampleTrade 1, sampleTrade 3])).reply.tradeId = some (JsVal.int 2) ∧
      (postTrade nanEngine (sampleBody 15)
          ((deleteTrade (JsNum.fin 3) [sampleTrade 1, sampleTrade 3]).store
            [sampleTrade 1, sampleTrade 3])).reply.tradeId ≠ some (JsVal.int 3) :=
  ⟨rfl, by decide, by decide, by decide, ⟨rfl, rfl⟩, rfl, rfl, by
    intro h
    have h2 : some (JsVal.int 2) = some (JsVal.int 3) := h
    simp [JsVal.int] at h2⟩

/-- C10, amended: on a storage that can be read and written and holds a
collection of pairwise distinct positive safe integer ids that a call can
spread, with highest id `m`: after Delete of `m` the storage holds the
remaining trades, and the id `getNextId` computes on them, the one every
Create answered 201 carries, is 1 plus the highest remaining id, or 1 when no
trade remains; it is the deleted `m` exactly when `m` is 1 or the collection
also held a trade with id `m - 1`. -/
theorem next_id_after_delete_of_highest (E : Engine) (trades : List Obj) (ids : List Int)
    (m : Int) (d : Disk) (_hd : Holds d trades) (hw : d.writable = true)
    (hr : d.readable = true) (hids : HasIds trades ids) (_hnd : ids.Nodup)
    (hpos : ∀ i ∈ ids, 0 < i) (hsafe : SafeIds ids) (hlen : trades.length ≤ E.maxArguments)
    (_hm : m ∈ ids) (hmax : ∀ i ∈ ids, i ≤ m) :
    ∃ (rest : List Obj) (next : Int),
      Holds ((deleteTrade (JsNum.fin m) trades).persist d) rest ∧
      HasIds rest (ids.filter (fun i => decide (i ≠ m))) ∧
      getNextId E rest = some (JsNum.fin next) ∧
      (ids.filter (fun i => decide (i ≠ m)) = [] → next = 1) ∧
      (ids.filter (fun i => decide (i ≠ m)) ≠ [] →
        ∃ r ∈ ids.filter (fun i => decide (i ≠ m)),
          (∀ i ∈ ids.filter (fun i => decide (i ≠ m)), i ≤ r) ∧ next = 1 + r) ∧
      (next = m ↔ (m = 1 ∨ m - 1 ∈ ids)) ∧
      (∀ (body : Option Obj) (t : Obj),
        (postTrade E body rest).reply = Reply.json 201 (JsVal.obj t) →
          getProp t "id" = some (JsVal.int next)) := by
  have hmem : ∀ i, i ∈ ids.filter (fun i => decide (i ≠ m)) ↔ i ∈ ids ∧ i ≠ m := by
    intro i
    simp [List.mem_filter]
  have hrest : HasIds ((trades.filter (fun trade => !idIs (JsNum.fin m) trade)).map jsonProps)
      (ids.filter (fun i => decide (i ≠ m))) := (hids.filter_ne m).jsonProps
  have hsafe' : SafeIds (ids.filter (fun i => decide (i ≠ m))) :=
    fun i hi => hsafe i ((hmem i).1 hi).1
  have hlen' : ((trades.filter (fun trade => !idIs (JsNum.fin m) trade)).map jsonProps).length
      ≤ E.maxArguments := by
    rw [List.length_map]
    exact le_trans (List.length_filter_le _ _) hlen
  obtain ⟨next, hn, h1, h2⟩ := getNextId_of_hasIds E _ _ hrest hsafe' hlen'
  refine ⟨_, next, holds_persist_of_written _ d _ rfl hw hr, hrest, hn, h1, h2, ?_, ?_⟩
  · by_cases he : ids.filter (fun i => decide (i ≠ m)) = []
    · have hn1 := h1 he
      constructor
      · intro h; left; omega
      · rintro (h | h)
        · omega
        · exfalso
          have : m - 1 ∈ ids.filter (fun i => decide (i ≠ m)) :=
            (hmem _).2 ⟨h, by omega⟩
          rw [he] at this
          cases this
    · obtain ⟨r, hr', hle, hnr⟩ := h2 he
      have hr'' := (hmem r).1 hr'
      have hrm := hmax r hr''.1
      have hrpos := hpos r hr''.1
      constructor
      · intro h
        right
        have : r = m - 1 := by omega
        rw [← this]
        exact hr''.1
      · rintro (h | h)
        · omega
        · have := hle (m - 1) ((hmem _).2 ⟨h, by omega⟩)
          have hne := hr''.2
          omega
  · intro body t ht
    obtain ⟨fields, x, _, _, hx, hte, _⟩ := postTrade_of_created E body _ t ht
    rw [hn] at hx
    cases hx
    rw [hte]
    exact getProp_setProp_self _ _ _

theorem next_id_after_delete_of_highest_witness :
    ∃ (rest : List Obj) (next : Int),
      Holds ((deleteTrade (JsNum.fin 2) [sampleTrade 1, sampleTrade 2]).persist
        (diskWith (JsVal.arr [JsVal.obj (sampleTrade 1), JsVal.obj (sampleTrade 2)]))) rest ∧
      HasIds rest (([1, 2] : List Int).filter (fun i => decide (i ≠ 2))) ∧
      getNextId nanEngine rest = some (JsNum.fin next) ∧
      (([1, 2] : List Int).filter (fun i => decide (i ≠ 2)) = [] → next = 1) ∧
      (([1, 2] : List Int).filter (fun i => decide (i ≠ 2)) ≠ [] →
        ∃ r ∈ ([1, 2] : List Int).filter (fun i => decide (i ≠ 2)),
          (∀ i ∈ ([1, 2] : List Int).filter (fun i => decide (i ≠ 2)), i ≤ r) ∧
            next = 1 + r) ∧
      (next = 2 ↔ ((2 : Int) = 1 ∨ (2 : Int) - 1 ∈ ([1, 2] : List Int))) ∧
      (∀ (body : Option Obj) (t : Obj),
        (postTrade nanEngine body rest).reply = Reply.json 201 (JsVal.obj t) →
          getProp t "id" = some (JsVal.int next)) :=
  next_id_after_delete_of_highest nanEngine [sampleTrade 1, sampleTrade 2] [1, 2] 2
    (diskWith (JsVal.arr [JsVal.obj (sampleTrade 1), JsVal.obj (sampleTrade 2)]))
    rfl rfl rfl rfl (by decide) (by decide) (by unfold SafeIds; decide) (by decide)
    (by decide) (by decide)

theorem findIdx?_first {α : Type} (p : α → Bool) (xs : List α) (i : Nat)
    (h : xs.findIdx? p = some i) : ∀ j, j < i → ∀ w, xs[j]? = some w → p w = false := by
  induction xs generalizing i with
  | nil => simp at h
  | cons x xs ih =>
    by_cases hx : p x = true
    · rw [List.findIdx?_cons, if_pos hx] at h
      cases h
      intro j hj
      omega
    · rw [List.findIdx?_cons, if_neg hx, List.findIdx?_succ] at h
      cases hi : xs.findIdx? p with
      | none => rw [hi] at h; cases h
      | some i' =>
        rw [hi] at h
        have hii : i = i' + 1 := by
          have : some (i' + 1) = some i := h
          cases this
          rfl
        subst hii
        intro j hj w hw
        cases j with
        | zero =>
          have : x = w := by simpa using hw
          subst this
          simpa using hx
        | succ j => exact ih i' hi j (by omega) w (by simpa using hw)

theorem find?_set_of_findIdx? {α : Type} (p : α → Bool) (xs : List α) (i : Nat) (a : α)
    (h : xs.findIdx? p = some i) (ha : p a = true) : (xs.set i a).find? p = some a := by
  induction xs generalizing i with
  | nil => simp at h
  | cons x xs ih =>
    by_cases hx : p x = true
    · rw [List.findIdx?_cons, if_pos hx] at h
      cases h
      simp [ha]
    · rw [List.findIdx?_cons, if_neg hx, List.findIdx?_succ] at h
      cases hi : xs.findIdx? p with
      | none => rw [hi] at h; cases h
      | some i' =>
        rw [hi] at h
        have hii : i = i' + 1 := by
          have : some (i' + 1) = some i := h
          cases this
          rfl
        subst hii
        rw [List.set_cons_succ, List.find?_cons_of_neg _ hx]
        exact ih i' hi

theorem idIs_setProp_price (id : JsNum) (t : Obj) (v : JsVal) :
    idIs id (setProp t "price" v) = idIs id t := by
  unfold idIs
  rw [getProp_setProp_of_ne t "price" "id" v (by decide)]

/-- What a 200 reply of Update price tells about the request. -/
theorem patchTrade_of_ok (id : JsNum) (body : Option Obj) (trades : List Obj) (u : Obj)
    (h : (patchTrade id body trades).reply = Reply.json 200 (JsVal.obj u)) :
    ∃ fields p t i, body = some fields ∧ getProp fields "price" = some (JsVal.num p) ∧
      trades.findIdx? (idIs id) = some i ∧ trades[i]? = some t ∧ idIs id t = true ∧
      u = setProp t "price" (JsVal.num p) ∧
      (patchTrade id body trades).written = some (trades.set i u) := by
  rcases patchTrade_cases id body trades with
    ⟨_, h1⟩ | ⟨_, h1⟩ | ⟨_, _, h1⟩ | ⟨fields, p, t, i, hb, hp, hf, hi, ht, h1⟩
  · rw [h1] at h; cases h
  · rw [h1] at h; simp [invalidPrice] at h
  · rw [h1] at h; simp [notFound] at h
  · rw [h1] at h
    have hu : setProp t "price" (JsVal.num p) = u := by
      injection h with _ h2
      injection h2
    subst hu
    exact ⟨fields, p, t, i, hb, hp, hi, ht, List.find?_some hf, rfl, by rw [h1]⟩

theorem jsonProps_of_mem_of_allFinite (trades : List Obj)
    (h : allFinite (JsVal.arr (trades.map JsVal.obj)) = true) :
    ∀ t ∈ trades, jsonProps t = t := by
  have hall := allFiniteValues_map_obj trades (by simpa [allFinite] using h)
  exact fun t ht => jsonProps_of_allFinite t (hall t ht)

/-- C17 as stated fails: on a file whose JSON text holds a trade with id 1 and
a trade whose id is beyond the range of numbers (`1e999`), Update price of 1
(run with the parsed body `{price: 42}`) answers 200, and the storage
afterwards holds the other trade with id `null` where it held `Infinity`:
a trade other than the updated one has changed. -/
theorem patch_frame_counterexample :
    Holds (diskWith (JsVal.arr [JsVal.obj (sampleTrade 1),
          JsVal.obj [("id", JsVal.num JsNum.posInf)]]))
        [sampleTrade 1, [("id", JsVal.num JsNum.posInf)]] ∧
      (patchTrade (JsNum.fin 1) [("price", JsVal.int 42)]
          [sampleTrade 1, [("id", JsVal.num JsNum.posInf)]]).reply
        = Reply.json 200 (JsVal.obj (setProp (sampleTrade 1) "price" (JsVal.int 42))) ∧
      Holds ((patchTrade (JsNum.fin 1) [("price", JsVal.int 42)]
          [sampleTrade 1, [("id", JsVal.num JsNum.posInf)]]).persist
          (diskWith (JsVal.arr [JsVal.obj (sampleTrade 1),
            JsVal.obj [("id", JsVal.num JsNum.posInf)]])))
        [setProp (sampleTrade 1) "price" (JsVal.int 42), [("id", JsVal.null)]] ∧
      ([("id", JsVal.null)] : Obj) ≠ [("id", JsVal.num JsNum.posInf)] := by
  refine ⟨rfl, rfl, rfl, ?_⟩
  intro h
  simp at h

/-- C17, amended: on a storage that can be read and written and holds a
collection of finite numbers, when Update price answers 200 with the trade
`u`, the storage afterwards holds a collection of the same length that
differs from the original one only at the place of the first trade `t` whose
id is the requested one; there it has `u` as JSON serialises it, which is `t`
with the new price (`null` for a price that is not finite) and every other
property of `t` (id, type, user_id, symbol, shares among them) unchanged. -/
theorem patch_frame_persisted (id : JsNum) (body : Option Obj) (trades : List Obj) (d : Disk)
    (u : Obj) (_hd : Holds d trades) (hw : d.writable = true) (hr : d.readable = true)
    (hfin : allFinite (JsVal.arr (trades.map JsVal.obj)) = true)
    (h : (patchTrade id body trades).reply = Reply.json 200 (JsVal.obj u)) :
    ∃ (p : JsNum) (t : Obj) (i : Nat) (after : List Obj),
      (∃ fields, body = some fields ∧ getProp fields "price" = some (JsVal.num p)) ∧
      Holds ((patchTrade id body trades).persist d) after ∧
      after.length = trades.length ∧
      trades[i]? = some t ∧ idIs id t = true ∧
      (∀ j, j < i → ∀ w, trades[j]? = some w → idIs id w = false) ∧
      (∀ j, j ≠ i → after[j]? = trades[j]?) ∧
      after[i]? = some (jsonProps u) ∧
      getProp (jsonProps u) "price" = some (jsonValue (JsVal.num p)) ∧
      (∀ k, k ≠ "price" → getProp (jsonProps u) k = getProp t k) := by
  obtain ⟨fields, p, t, i, hb, hp, hi, ht, hid, hu, hwr⟩ := patchTrade_of_ok id body trades u h
  have hlt : i < trades.length := by
    rcases Nat.lt_or_ge i trades.length with hlt | hge
    · exact hlt
    · rw [List.getElem?_eq_none hge] at ht
      cases ht
  have hself := jsonProps_of_mem_of_allFinite trades hfin
  have htmem : t ∈ trades := List.getElem?_mem ht
  refine ⟨p, t, i, (trades.set i u).map jsonProps, ⟨fields, hb, hp⟩,
    holds_persist_of_written _ d _ hwr hw hr, by simp, ht, hid,
    findIdx?_first _ trades i hi, ?_, ?_, ?_, ?_⟩
  · intro j hj
    rw [List.getElem?_map, List.getElem?_set_ne (Ne.symm hj)]
    cases hg : trades[j]? with
    | none => rfl
    | some w =>
      have hwm : w ∈ trades := List.getElem?_mem hg
      simp [hself w hwm]
  · rw [List.getElem?_map, List.getElem?_set_self hlt]
    rfl
  · rw [getProp_jsonProps, hu, getProp_setProp_self]
    rfl
  · intro k hk
    rw [getProp_jsonProps, hu, getProp_setProp_of_ne t "price" k _ (Ne.symm hk),
      ← getProp_jsonProps, hself t htmem]

theorem patch_frame_persisted_witness :
    ∃ (p : JsNum) (t : Obj) (i : Nat) (after : List Obj),
      (∃ fields, (([("price", JsVal.int 42)] : Obj) : Option Obj) = some fields ∧
        getProp fields "price" = some (JsVal.num p)) ∧
      Holds ((patchTrade (JsNum.fin 3) [("price", JsVal.int 42)]
          [sampleTrade 1, sampleTrade 3]).persist
          (diskWith (JsVal.arr [JsVal.obj (sampleTrade 1), JsVal.obj (sampleTrade 3)]))) after ∧
      after.length = [sampleTrade 1, sampleTrade 3].length ∧
      [sampleTrade 1, sampleTrade 3][i]? = some t ∧ idIs (JsNum.fin 3) t = true ∧
      (∀ j, j < i → ∀ w, [sampleTrade 1, sampleTrade 3][j]? = some w →
        idIs (JsNum.fin 3) w = false) ∧
      (∀ j, j ≠ i → after[j]? = [sampleTrade 1, sampleTrade 3][j]?) ∧
      after[i]? = some (jsonProps (setProp (sampleTrade 3) "price" (JsVal.int 42))) ∧
      getProp (jsonProps (setProp (sampleTrade 3) "price" (JsVal.int 42))) "price"
        = some (jsonValue (JsVal.num p)) ∧
      (∀ k, k ≠ "price" →
        getProp (jsonProps (setProp (sampleTrade 3) "price" (JsVal.int 42))) k = getProp t k) :=
  patch_frame_persisted (JsNum.fin 3) [("price", JsVal.int 42)] [sampleTrade 1, sampleTrade 3]
    (diskWith (JsVal.arr [JsVal.obj (sampleTrade 1), JsVal.obj (sampleTrade 3)]))
    (setProp (sampleTrade 3) "price" (JsVal.int 42)) rfl rfl rfl rfl rfl

/-- C18 as stated fails: on a storage that cannot be written and holds one
trade, Create (run with a parsed valid body) answers 201 with a new trade,
the failed write is swallowed, and the storage afterwards holds the original
collection, not the original followed by the returned trade. -/
theorem create_frame_counterexample :
    Holds (readOnlyDisk (JsVal.arr [JsVal.obj (sampleTrade 1)])) [sampleTrade 1] ∧
      Valid nanEngine (sampleBody 15) ∧
      (postTrade nanEngine (sampleBody 15) [sampleTrade 1]).reply
        = Reply.json 201 (JsVal.obj (setProp (sampleBody 15) "id" (JsVal.int 2))) ∧
      Holds ((postTrade nanEngine (sampleBody 15) [sampleTrade 1]).persist
          (readOnlyDisk (JsVal.arr [JsVal.obj (sampleTrade 1)]))) [sampleTrade 1] ∧
      ¬ Holds ((postTrade nanEngine (sampleBody 15) [sampleTrade 1]).persist
          (readOnlyDisk (JsVal.arr [JsVal.obj (sampleTrade 1)])))
        ([sampleTrade 1] ++ [setProp (sampleBody 15) "id" (JsVal.int 2)]) := by
  refine ⟨rfl, ⟨rfl, rfl⟩, rfl, rfl, ?_⟩
  intro h
  have h1 : Holds ((postTrade nanEngine (sampleBody 15) [sampleTrade 1]).persist
      (readOnlyDisk (JsVal.arr [JsVal.obj (sampleTrade 1)]))) [sampleTrade 1] := rfl
  have h2 := congrArg List.length (h1.unique h)
  simp at h2

/-- C18, amended: for every collection and every `req.body`, when Create
answers 201 with the trade `t` and the storage can be read and written, the
storage afterwards holds the original collection followed by exactly one new
last element, `t`, every trade as JSON serialises it (unchanged when its
numbers are finite); when Create answers anything else, as it does for an
undefined `req.body`, or the write fails, the storage is unchanged. -/
theorem create_frame_persisted (E : Engine) (body : Option Obj) (trades : List Obj)
    (d : Disk) (_hd : Holds d trades) :
    (∀ t, (postTrade E body trades).reply = Reply.json 201 (JsVal.obj t) →
        d.writable = true → d.readable = true →
        Holds ((postTrade E body trades).persist d) (trades.map jsonProps ++ [jsonProps t]) ∧
        (trades.map jsonProps ++ [jsonProps t]).length = trades.length + 1 ∧
        (allFinite (JsVal.arr ((trades ++ [t]).map JsVal.obj)) = true →
          trades.map jsonProps ++ [jsonProps t] = trades ++ [t])) ∧
      ((∀ t, (postTrade E body trades).reply ≠ Reply.json 201 (JsVal.obj t)) →
        (postTrade E body trades).persist d = d) ∧
      (d.writable = false → (postTrade E body trades).persist d = d) ∧
      (body = none → (postTrade E body trades).reply = Reply.threw ∧
        (postTrade E body trades).persist d = d) := by
  refine ⟨?_, ?_, fun hw => persist_of_not_writable _ d hw, ?_⟩
  · intro t h hw hr
    obtain ⟨fields, x, _, _, _, _, hwr⟩ := postTrade_of_created E body trades t h
    refine ⟨?_, by simp, ?_⟩
    · have := holds_persist_of_written _ d _ hwr hw hr
      simpa using this
    · intro hf
      have := map_jsonProps_of_allFinite (trades ++ [t]) hf
      simpa using this
  · intro hno
    rcases postTrade_cases E body trades with ⟨_, h1⟩ | h1 | ⟨fields, next, _, _, _, h1⟩
    · exact persist_of_not_written _ d h1
    · exact persist_of_not_written _ d (by rw [h1])
    · exact absurd (by rw [h1]) (hno (setProp fields "id" (JsVal.num next)))
  · intro hb
    subst hb
    exact ⟨rfl, rfl⟩

theorem create_frame_persisted_witness :
    Holds ((postTrade nanEngine (sampleBody 15) [sampleTrade 1]).persist
        (diskWith (JsVal.arr [JsVal.obj (sampleTrade 1)])))
        ([sampleTrade 1].map jsonProps
          ++ [jsonProps (setProp (sampleBody 15) "id" (JsVal.int 2))]) ∧
      ([sampleTrade 1].map jsonProps
          ++ [jsonProps (setProp (sampleBody 15) "id" (JsVal.int 2))]).length
        = [sampleTrade 1].length + 1 ∧
      (allFinite (JsVal.arr (([sampleTrade 1]
          ++ [setProp (sampleBody 15) "id" (JsVal.int 2)]).map JsVal.obj)) = true →
        [sampleTrade 1].map jsonProps
            ++ [jsonProps (setProp (sampleBody 15) "id" (JsVal.int 2))]
          = [sampleTrade 1] ++ [setProp (sampleBody 15) "id" (JsVal.int 2)]) :=
  (create_frame_persisted nanEngine (sampleBody 15) [sampleTrade 1]
    (diskWith (JsVal.arr [JsVal.obj (sampleTrade 1)])) rfl).1
    (setProp (sampleBody 15) "id" (JsVal.int 2)) rfl rfl rfl

/-- C19 as stated fails: Update price of trade 1 run with the parsed body
`{price: 1e999}` answers 200 with a trade whose price is `Infinity`, a
number; the storage then holds the trade with price `null`, and the following
Get of 1 answers 200 with a trade whose price is `null`, not the price of the
request. -/
theorem patch_then_get_counterexample :
    getProp [("price", JsVal.num JsNum.posInf)] "price" = some (JsVal.num JsNum.posInf) ∧
      (patchTrade (JsNum.fin 1) [("price", JsVal.num JsNum.posInf)] [sampleTrade 1]).reply
        = Reply.json 200
            (JsVal.obj (setProp (sampleTrade 1) "price" (JsVal.num JsNum.posInf))) ∧
      Holds ((patchTrade (JsNum.fin 1) [("price", JsVal.num JsNum.posInf)]
          [sampleTrade 1]).persist (diskWith (JsVal.arr [JsVal.obj (sampleTrade 1)])))
        [setProp (sampleTrade 1) "price" JsVal.null] ∧
      (getTrade (JsNum.fin 1) [setProp (sampleTrade 1) "price" JsVal.null]).reply
        = Reply.json 200 (JsVal.obj (setProp (sampleTrade 1) "price" JsVal.null)) ∧
      getProp (setProp (sampleTrade 1) "price" JsVal.null) "price" = some JsVal.null ∧
      getProp (setProp (sampleTrade 1) "price" JsVal.null) "price"
        ≠ some (JsVal.num JsNum.posInf) := by
  refine ⟨rfl, rfl, rfl, rfl, rfl, ?_⟩
  intro h
  have h2 : some JsVal.null = some (JsVal.num JsNum.posInf) := h
  simp at h2

/-- C19, amended: on a storage that can be read and written, when Update
price of an integer id answers 200 with the trade `u`, the price of the body
is a number `p`, and Get of the same id on the collection the storage holds
afterwards answers 200 with `u` as JSON serialises it: its price is `p` when
`p` is finite, and it is equal to `u` when every number in `u` is finite. -/
theorem patch_then_get_persisted (n : Int) (body : Option Obj) (trades : List Obj) (d : Disk)
    (u : Obj) (_hd : Holds d trades) (hw : d.writable = true) (hr : d.readable = true)
    (h : (patchTrade (JsNum.fin n) body trades).reply = Reply.json 200 (JsVal.obj u)) :
    ∃ (p : JsNum) (after : List Obj),
      (∃ fields, body = some fields ∧ getProp fields "price" = some (JsVal.num p)) ∧
      getProp u "price" = some (JsVal.num p) ∧
      Holds ((patchTrade (JsNum.fin n) body trades).persist d) after ∧
      (getTrade (JsNum.fin n) after).reply = Reply.json 200 (JsVal.obj (jsonProps u)) ∧
      (∀ k : Int, p = JsNum.fin k → getProp (jsonProps u) "price" = some (JsVal.int k)) ∧
      (allFiniteProps u = true → jsonProps u = u) := by
  obtain ⟨fields, p, t, i, hb, hp, hi, _, hid, hu, hwr⟩ :=
    patchTrade_of_ok (JsNum.fin n) body trades u h
  have hpu : getProp u "price" = some (JsVal.num p) := by
    rw [hu]; exact getProp_setProp_self _ _ _
  refine ⟨p, (trades.set i u).map jsonProps, ⟨fields, hb, hp⟩, hpu,
    holds_persist_of_written _ d _ hwr hw hr, ?_, ?_, jsonProps_of_allFinite u⟩
  · have hidu : idIs (JsNum.fin n) u = true := by rw [hu, idIs_setProp_price]; exact hid
    have hfind : ((trades.set i u).map jsonProps).find? (idIs (JsNum.fin n))
        = some (jsonProps u) := by
      rw [List.map_set]
      apply find?_set_of_findIdx?
      · rw [List.findIdx?_map]
        have hfirst := findIdx?_first _ trades i hi
        rw [List.findIdx?_eq_some_iff_getElem] at hi ⊢
        obtain ⟨hlt, hpi, _⟩ := hi
        refine ⟨hlt, idIs_jsonProps_int n _ hpi, ?_⟩
        intro j hj hc
        have hjl : j < trades.length := Nat.lt_trans hj hlt
        have := hfirst j hj trades[j] (List.getElem?_eq_getElem hjl)
        have hc' := idIs_of_idIs_jsonProps _ _ hc
        rw [this] at hc'
        cases hc'
      · exact idIs_jsonProps_int n u hidu
    simp only [getTrade, hfind]
  · intro k hk
    subst hk
    rw [getProp_jsonProps, hpu]
    rfl

theorem patch_then_get_persisted_witness :
    ∃ (p : JsNum) (after : List Obj),
      (∃ fields, (([("price", JsVal.int 42)] : Obj) : Option Obj) = some fields ∧
        getProp fields "price" = some (JsVal.num p)) ∧
      getProp (setProp (sampleTrade 3) "price" (JsVal.int 42)) "price" = some (JsVal.num p) ∧
      Holds ((patchTrade (JsNum.fin 3) [("price", JsVal.int 42)]
          [sampleTrade 1, sampleTrade 3]).persist
          (diskWith (JsVal.arr [JsVal.obj (sampleTrade 1), JsVal.obj (sampleTrade 3)]))) after ∧
      (getTrade (JsNum.fin 3) after).reply
        = Reply.json 200
            (JsVal.obj (jsonProps (setProp (sampleTrade 3) "price" (JsVal.int 42)))) ∧
      (∀ k : Int, p = JsNum.fin k →
        getProp (jsonProps (setProp (sampleTrade 3) "price" (JsVal.int 42))) "price"
          = some (JsVal.int k)) ∧
      (allFiniteProps (setProp (sampleTrade 3) "price" (JsVal.int 42)) = true →
        jsonProps (setProp (sampleTrade 3) "price" (JsVal.int 42))
          = setProp (sampleTrade 3) "price" (JsVal.int 42)) :=
  patch_then_get_persisted 3 [("price", JsVal.int 42)] [sampleTrade 1, sampleTrade 3]
    (diskWith (JsVal.arr [JsVal.obj (sampleTrade 1), JsVal.obj (sampleTrade 3)]))
    (setProp (sampleTrade 3) "price" (JsVal.int 42)) rfl rfl rfl rfl

end StockTrades
